import Mathlib

/-!
Shallow embedding of the vote/comment counter-consistency subsystem of the
`freestealer` repository (`handlers/vote_comment_handler.go`, `models/models.go`).

The relational store is modelled as lists of rows.  GORM soft deletion
(`gorm.DeletedAt`) is modelled with a `deleted` flag on each row: default
queries (`First`, `Delete`, `Update`, `UpdateColumn`) only see rows with
`deleted = false`, while the composite unique index `idx_user_tier` on
`(user_id, tier_id)` of `votes` is a plain (unfiltered) SQL index and hence
also sees soft-deleted rows.

Storage failures are injected through an oracle `Nat → Bool`: `oracle n = true`
means the n-th SQL statement issued by the handler call returns an error.
The production store is PostgreSQL (`database.InitDatabase`), where an erroring
statement aborts the open transaction, so a later `Commit` rolls back; the
handlers' explicit `tx.Rollback()` calls on checked errors also restore the
pre-call state.  Each handler result therefore carries the response written to
the client, the database state after the call, and a `failed` flag recording
whether some storage statement errored during the call.

Fields of the Go structs that the modelled handlers neither read nor write
(timestamps, descriptive tier fields, relation fields) are omitted.
-/

namespace Freestealer

/-- A row of the `tiers` table: primary key, the three denormalized counters
(`int` in Go, modelled as `Int`), and the soft-deletion flag. -/
structure TierRow where
  id : Nat
  upvote_count : Int
  downvote_count : Int
  comment_count : Int
  deleted : Bool
deriving DecidableEq, Repr

/-- A row of the `votes` table (`models.Vote`): primary key, user and tier
references, `vote_type` (`int8` in Go; 1 = upvote, -1 = downvote) and the
soft-deletion flag. -/
structure VoteRow where
  id : Nat
  user_id : Nat
  tier_id : Nat
  vote_type : Int
  deleted : Bool
deriving DecidableEq, Repr

/-- A row of the `comments` table (`models.Comment`). -/
structure CommentRow where
  id : Nat
  user_id : Nat
  tier_id : Nat
  content : String
  deleted : Bool
deriving DecidableEq, Repr

/-- The database state: the three tables touched by the handlers plus the
primary-key allocators for the two tables the handlers insert into. -/
structure DB where
  tiers : List TierRow
  votes : List VoteRow
  comments : List CommentRow
  nextVoteId : Nat
  nextCommentId : Nat
deriving DecidableEq, Repr

/-- `handlers.VoteRequest`: the decoded body of `POST /votes`. -/
structure VoteRequest where
  user_id : Nat
  tier_id : Nat
  vote_type : Int
deriving DecidableEq, Repr

/-- An SQL `UPDATE ... WHERE sel`: apply `g` to every row satisfying `sel`. -/
def updWhere {α : Type} (sel : α → Bool) (g : α → α) (l : List α) : List α :=
  l.map (fun x => if sel x then g x else x)

/-- `tx.Where("user_id = ? AND tier_id = ?", u, t).First(&existingVote)`:
the first non-soft-deleted vote row for the pair, if any. -/
def findLiveVote (votes : List VoteRow) (u t : Nat) : Option VoteRow :=
  votes.find? (fun v => !v.deleted && v.user_id == u && v.tier_id == t)

/-- The composite unique index `idx_user_tier` on `(user_id, tier_id)`:
an insert for the pair violates it when ANY row (soft-deleted included)
already carries the pair. -/
def votePairTaken (votes : List VoteRow) (u t : Nat) : Bool :=
  votes.any (fun v => v.user_id == u && v.tier_id == t)

/-- `database.DB.First(&comment, id)`: the non-soft-deleted comment with the
given primary key, if any. -/
def findLiveComment (comments : List CommentRow) (id : Nat) : Option CommentRow :=
  comments.find? (fun c => !c.deleted && c.id == id)

/-- `tx.Model(&models.Tier{}).Where("id = ?", tid).UpdateColumn(...)`:
GORM's default scope restricts the update to non-soft-deleted rows; when no
row matches, the statement succeeds and changes nothing. -/
def adjustTier (tiers : List TierRow) (tid : Nat) (g : TierRow → TierRow) :
    List TierRow :=
  updWhere (fun tr => tr.id == tid && !tr.deleted) g tiers

/-- `UpdateColumn("upvote_count", gorm.Expr("upvote_count + d"))` on one row. -/
def addUp (d : Int) (tr : TierRow) : TierRow :=
  { tr with upvote_count := tr.upvote_count + d }

/-- `UpdateColumn("downvote_count", gorm.Expr("downvote_count + d"))` on one row. -/
def addDown (d : Int) (tr : TierRow) : TierRow :=
  { tr with downvote_count := tr.downvote_count + d }

/-- `UpdateColumn("comment_count", gorm.Expr("comment_count + d"))` on one row. -/
def addCom (d : Int) (tr : TierRow) : TierRow :=
  { tr with comment_count := tr.comment_count + d }

/-- `tx.Delete(&row)` on a soft-deletable model: mark the non-deleted row with
the given primary key as deleted. -/
def markVoteDeleted (votes : List VoteRow) (id : Nat) : List VoteRow :=
  updWhere (fun v => v.id == id && !v.deleted)
    (fun v => { v with deleted := true }) votes

/-- `tx.Model(&existingVote).Update("vote_type", vt)`. -/
def setVoteType (votes : List VoteRow) (id : Nat) (vt : Int) : List VoteRow :=
  updWhere (fun v => v.id == id && !v.deleted)
    (fun v => { v with vote_type := vt }) votes

/-- `tx.Delete(&comment)`. -/
def markCommentDeleted (comments : List CommentRow) (id : Nat) : List CommentRow :=
  updWhere (fun c => c.id == id && !c.deleted)
    (fun c => { c with deleted := true }) comments

/-- The response `VoteTier` writes to the client: HTTP 400, 201 + vote JSON,
200 + "Vote removed", 200 + vote JSON, or 500. -/
inductive VoteOutcome where
  | invalidArgument
  | created (v : VoteRow)
  | removed
  | updated (v : VoteRow)
  | storageFailure
deriving DecidableEq, Repr

/-- Result of one `VoteTier` call: response, database state after the call,
and whether some storage statement errored during the call. -/
structure VoteRes where
  outcome : VoteOutcome
  db : DB
  failed : Bool
deriving DecidableEq, Repr

/-- `handlers.VoteTier` (POST /votes), statement-by-statement.
Statement 0 is the `First` lookup; statement 1 the vote `Create`/`Delete`/
`Update`; statements 2 (and 3 on the switch path) the counter
`UpdateColumn`s, whose errors the Go code does NOT check: on such an error
the handler still calls `tx.Commit()` (which rolls the aborted transaction
back) and writes the success response. -/
def VoteTier (oracle : Nat → Bool) (db : DB) (req : VoteRequest) : VoteRes :=
  if req.vote_type ≠ 1 ∧ req.vote_type ≠ -1 then
    -- `http.Error(w, "Vote type must be 1 ... or -1 ...", 400)`, before `Begin`
    ⟨.invalidArgument, db, false⟩
  else if oracle 0 then
    -- lookup errored (neither a row nor `ErrRecordNotFound`): rollback, 500
    ⟨.storageFailure, db, true⟩
  else
    match findLiveVote db.votes req.user_id req.tier_id with
    | none =>
      -- `err == gorm.ErrRecordNotFound`: create a new vote
      if oracle 1 || votePairTaken db.votes req.user_id req.tier_id then
        -- `tx.Create(&vote)` errored (oracle or unique-index violation):
        -- rollback, 500
        ⟨.storageFailure, db, true⟩
      else
        let v : VoteRow :=
          { id := db.nextVoteId, user_id := req.user_id,
            tier_id := req.tier_id, vote_type := req.vote_type,
            deleted := false }
        if oracle 2 then
          -- counter `UpdateColumn` errored; the error is ignored, `Commit`
          -- rolls the aborted transaction back, 201 + vote JSON is written
          ⟨.created v, db, true⟩
        else
          ⟨.created v,
            { db with
              votes := db.votes ++ [v]
              tiers :=
                if req.vote_type = 1 then
                  adjustTier db.tiers req.tier_id (addUp 1)
                else
                  adjustTier db.tiers req.tier_id (addDown 1)
              nextVoteId := db.nextVoteId + 1 },
            false⟩
    | some existingVote =>
      if existingVote.vote_type = req.vote_type then
        -- same vote: toggle off
        if oracle 1 then
          -- `tx.Delete(&existingVote)` errored: rollback, 500
          ⟨.storageFailure, db, true⟩
        else if oracle 2 then
          -- counter `UpdateColumn` errored, ignored; `Commit` rolls back
          ⟨.removed, db, true⟩
        else
          ⟨.removed,
            { db with
              votes := markVoteDeleted db.votes existingVote.id
              tiers :=
                if existingVote.vote_type = 1 then
                  adjustTier db.tiers req.tier_id (addUp (-1))
                else
                  adjustTier db.tiers req.tier_id (addDown (-1)) },
            false⟩
      else
        -- different vote type: switch
        if oracle 1 then
          -- `tx.Model(&existingVote).Update("vote_type", ...)` errored:
          -- rollback, 500
          ⟨.storageFailure, db, true⟩
        else if oracle 2 || oracle 3 then
          -- one of the two counter `UpdateColumn`s errored, ignored;
          -- `Commit` rolls back, 200 + vote JSON is written
          ⟨.updated { existingVote with vote_type := req.vote_type }, db, true⟩
        else
          ⟨.updated { existingVote with vote_type := req.vote_type },
            { db with
              votes := setVoteType db.votes existingVote.id req.vote_type
              tiers :=
                if existingVote.vote_type = 1 then
                  adjustTier (adjustTier db.tiers req.tier_id (addUp (-1)))
                    req.tier_id (addDown 1)
                else
                  adjustTier (adjustTier db.tiers req.tier_id (addDown (-1)))
                    req.tier_id (addUp 1) },
            false⟩

/-- The response `CreateComment` writes: 400, 201 + comment JSON, or 500. -/
inductive CommentOutcome where
  | invalidArgument
  | created (c : CommentRow)
  | storageFailure
deriving DecidableEq, Repr

/-- Result of one `CreateComment` call. -/
structure CommentRes where
  outcome : CommentOutcome
  db : DB
  failed : Bool
deriving DecidableEq, Repr

/-- `handlers.CreateComment` (POST /comments).  Go's `len(content)` is the
UTF-8 byte length.  Statement 0 is `tx.Create(&comment)`, statement 1 the
`comment_count` `UpdateColumn`; both errors ARE checked here (rollback, 500). -/
def CreateComment (oracle : Nat → Bool) (db : DB) (user_id tier_id : Nat)
    (content : String) : CommentRes :=
  if content.utf8ByteSize = 0 ∨ content.utf8ByteSize > 100 then
    -- `http.Error(w, "Comment must be between 1 and 100 characters", 400)`,
    -- before `Begin`
    ⟨.invalidArgument, db, false⟩
  else if oracle 0 then
    ⟨.storageFailure, db, true⟩
  else
    let c : CommentRow :=
      { id := db.nextCommentId, user_id := user_id, tier_id := tier_id,
        content := content, deleted := false }
    if oracle 1 then
      ⟨.storageFailure, db, true⟩
    else
      ⟨.created c,
        { db with
          comments := db.comments ++ [c]
          tiers := adjustTier db.tiers tier_id (addCom 1)
          nextCommentId := db.nextCommentId + 1 },
        false⟩

/-- The response `DeleteComment` writes: 404, 200 + message, or 500. -/
inductive DeleteOutcome where
  | notFound
  | deleted
  | storageFailure
deriving DecidableEq, Repr

/-- Result of one `DeleteComment` call. -/
structure DeleteRes where
  outcome : DeleteOutcome
  db : DB
  failed : Bool
deriving DecidableEq, Repr

/-- `handlers.DeleteComment` (DELETE /comments/{id}).  Statement 0 is the
`First` lookup (ANY error, storage errors included, yields 404); statement 1
`tx.Delete(&comment)`; statement 2 the `comment_count` `UpdateColumn`; the
latter two errors are checked (rollback, 500). -/
def DeleteComment (oracle : Nat → Bool) (db : DB) (id : Nat) : DeleteRes :=
  if oracle 0 then
    ⟨.notFound, db, true⟩
  else
    match findLiveComment db.comments id with
    | none => ⟨.notFound, db, false⟩
    | some comment =>
      if oracle 1 then
        ⟨.storageFailure, db, true⟩
      else if oracle 2 then
        ⟨.storageFailure, db, true⟩
      else
        ⟨.deleted,
          { db with
            comments := markCommentDeleted db.comments comment.id
            tiers := adjustTier db.tiers comment.tier_id (addCom (-1)) },
          false⟩

/-- One call to the subsystem, with its injected-failure oracle. -/
inductive Op where
  | vote (oracle : Nat → Bool) (req : VoteRequest)
  | comment (oracle : Nat → Bool) (user_id tier_id : Nat) (content : String)
  | retract (oracle : Nat → Bool) (id : Nat)

/-- The database state after one call. -/
def step (db : DB) : Op → DB
  | .vote oracle req => (VoteTier oracle db req).db
  | .comment oracle u t content => (CreateComment oracle db u t content).db
  | .retract oracle id => (DeleteComment oracle db id).db

/-- The database state after a sequence of calls. -/
def run (db : DB) : List Op → DB
  | [] => db
  | op :: ops => run (step db op) ops

/-- The number of live (non-soft-deleted) vote rows of the given type for the
given tier. -/
def liveVotes (votes : List VoteRow) (tid : Nat) (vt : Int) : Nat :=
  votes.countP (fun v => !v.deleted && v.tier_id == tid && v.vote_type == vt)

/-- The number of live comment rows for the given tier. -/
def liveComments (comments : List CommentRow) (tid : Nat) : Nat :=
  comments.countP (fun c => !c.deleted && c.tier_id == tid)

/-- The core invariant: every tier row's three denormalized counters equal the
corresponding live child-row counts. -/
def countersOK (db : DB) : Prop :=
  ∀ tr ∈ db.tiers,
    tr.upvote_count = (liveVotes db.votes tr.id 1 : Int) ∧
    tr.downvote_count = (liveVotes db.votes tr.id (-1) : Int) ∧
    tr.comment_count = (liveComments db.comments tr.id : Int)

instance (db : DB) : Decidable (countersOK db) := by
  unfold countersOK; exact inferInstance

/-- Well-formedness of a database state, as guaranteed by the schema
(primary keys, the unique index on `(user_id, tier_id)`, key allocation) plus
the two facts that every reachable state of the subsystem satisfies: every
vote row carries a validated type, and no tier row is soft-deleted (no
operation of the subsystem deletes tiers). -/
def WF (db : DB) : Prop :=
  (db.tiers.map TierRow.id).Nodup ∧
  (db.votes.map VoteRow.id).Nodup ∧
  (db.comments.map CommentRow.id).Nodup ∧
  (db.votes.map (fun v => (v.user_id, v.tier_id))).Nodup ∧
  (∀ v ∈ db.votes, v.id < db.nextVoteId) ∧
  (∀ c ∈ db.comments, c.id < db.nextCommentId) ∧
  (∀ v ∈ db.votes, v.vote_type = 1 ∨ v.vote_type = -1) ∧
  (∀ tr ∈ db.tiers, tr.deleted = false)

instance (db : DB) : Decidable (WF db) := by
  unfold WF; exact inferInstance

/-- The all-success failure oracle: no storage statement errors. -/
def noFail : Nat → Bool := fun _ => false

/-! ### Generic lemmas about the row-list primitives -/

theorem updWhere_eq_self {α : Type} {sel : α → Bool} {g : α → α} :
    ∀ {l : List α}, (∀ x ∈ l, sel x = false) → updWhere sel g l = l := by
  intro l h
  unfold updWhere
  have hpt : ∀ x ∈ l, (if sel x then g x else x) = x := by
    intro x hx
    rw [if_neg (by simp [h x hx])]
  rw [List.map_congr_left hpt]
  exact List.map_id' l

theorem mem_updWhere {α : Type} {sel : α → Bool} {g : α → α} {l : List α}
    {x' : α} (h : x' ∈ updWhere sel g l) :
    ∃ x ∈ l, (sel x = true ∧ x' = g x) ∨ (sel x = false ∧ x' = x) := by
  unfold updWhere at h
  obtain ⟨x, hx, hx'⟩ := List.mem_map.mp h
  refine ⟨x, hx, ?_⟩
  by_cases hs : sel x = true
  · left; refine ⟨hs, ?_⟩; rw [← hx']; simp [hs]
  · right
    refine ⟨by simpa using hs, ?_⟩
    rw [← hx']; simp [hs]

theorem map_updWhere_of_preserved {α κ : Type} (sel : α → Bool) (g : α → α)
    (key : α → κ) (hg : ∀ x, key (g x) = key x) (l : List α) :
    (updWhere sel g l).map key = l.map key := by
  unfold updWhere
  rw [List.map_map]
  refine List.map_congr_left ?_
  intro x _
  by_cases hs : sel x = true <;> simp [hs, hg]

theorem countP_updWhere_key {α κ : Type} [DecidableEq κ]
    (p sel : α → Bool) (g : α → α) (key : α → κ) (k₀ : κ)
    (hsel : ∀ x, sel x = true → key x = k₀) :
    ∀ (l : List α), (l.map key).Nodup → ∀ x₀ ∈ l, sel x₀ = true →
      (updWhere sel g l).countP p + (if p x₀ then 1 else 0)
        = l.countP p + (if p (g x₀) then 1 else 0) := by
  intro l
  induction l with
  | nil => intro _ x₀ hx₀; exact absurd hx₀ (List.not_mem_nil x₀)
  | cons y l ih =>
    intro hnd x₀ hx₀ hselx
    rw [List.map_cons, List.nodup_cons] at hnd
    obtain ⟨hy, hnd'⟩ := hnd
    rcases List.mem_cons.mp hx₀ with rfl | hx₀l
    · -- the updated row is the head; no row of the tail matches `sel`
      have htail : ∀ x ∈ l, sel x = false := by
        intro x hx
        by_contra hcon
        have hsx : sel x = true := by
          cases hsx : sel x
          · exact absurd hsx hcon
          · rfl
        exact hy (by
          rw [hsel x₀ hselx, ← hsel x hsx]
          exact List.mem_map_of_mem key hx)
      unfold updWhere
      rw [List.map_cons, if_pos hselx]
      have hrest : List.map (fun x => if sel x then g x else x) l = l :=
        updWhere_eq_self htail
      rw [hrest, List.countP_cons, List.countP_cons]
      omega
    · -- the updated row is in the tail; the head does not match `sel`
      have hyne : sel y = false := by
        cases hsy : sel y
        · rfl
        · exact absurd (by
            rw [hsel y hsy, ← hsel x₀ hselx]
            exact List.mem_map_of_mem key hx₀l) hy
      unfold updWhere
      rw [List.map_cons, if_neg (by simp [hyne])]
      rw [List.countP_cons, List.countP_cons]
      have := ih hnd' x₀ hx₀l hselx
      unfold updWhere at this
      omega

theorem find?_eq_some_of_unique {α : Type} {p : α → Bool} :
    ∀ (l : List α) (x₀ : α), x₀ ∈ l → p x₀ = true →
      (∀ w ∈ l, p w = true → w = x₀) → l.find? p = some x₀ := by
  intro l
  induction l with
  | nil => intro x₀ hx₀; exact absurd hx₀ (List.not_mem_nil x₀)
  | cons y l ih =>
    intro x₀ hx₀ hp huniq
    by_cases hy : p y = true
    · have : y = x₀ := huniq y (List.mem_cons_self y l) hy
      rw [List.find?_cons, hy]
      exact congrArg some this
    · have hyb : p y = false := by
        cases hpy : p y
        · rfl
        · exact absurd hpy hy
      rw [List.find?_cons, hyb]
      have hx₀l : x₀ ∈ l := by
        rcases List.mem_cons.mp hx₀ with rfl | h
        · exact absurd hp hy
        · exact h
      exact ih x₀ hx₀l hp (fun w hw hpw => huniq w (List.mem_cons_of_mem y hw) hpw)

theorem nodup_map_append_singleton {α κ : Type} {key : α → κ} {l : List α}
    {x : α} (hl : (l.map key).Nodup) (hx : ∀ y ∈ l, key y ≠ key x) :
    ((l ++ [x]).map key).Nodup := by
  rw [List.map_append, List.map_singleton]
  rw [List.nodup_append]
  refine ⟨hl, List.nodup_singleton _, ?_⟩
  intro a ha
  simp only [List.mem_singleton]
  intro hb
  obtain ⟨y, hy, hya⟩ := List.mem_map.mp ha
  subst hb
  exact hx y hy (by rw [hya])

/-! ### Facts about the lookup and counting functions -/

theorem findLiveVote_some {votes : List VoteRow} {u t : Nat} {ex : VoteRow}
    (h : findLiveVote votes u t = some ex) :
    ex ∈ votes ∧ ex.deleted = false ∧ ex.user_id = u ∧ ex.tier_id = t := by
  have hmem := List.mem_of_find?_eq_some h
  have hp := List.find?_some h
  simp only [Bool.and_eq_true, Bool.not_eq_true', beq_iff_eq] at hp
  exact ⟨hmem, hp.1.1, hp.1.2, hp.2⟩

theorem findLiveVote_eq_some {votes : List VoteRow} {u t : Nat} {ex : VoteRow}
    (hnd : (votes.map (fun v => (v.user_id, v.tier_id))).Nodup)
    (hmem : ex ∈ votes) (hlive : ex.deleted = false)
    (hu : ex.user_id = u) (ht : ex.tier_id = t) :
    findLiveVote votes u t = some ex := by
  apply find?_eq_some_of_unique
  · exact hmem
  · simp [hlive, hu, ht]
  · intro w hw hpw
    simp only [Bool.and_eq_true, Bool.not_eq_true', beq_iff_eq] at hpw
    exact List.inj_on_of_nodup_map hnd hw hmem
      (by rw [hpw.1.2, hpw.2, hu, ht])

theorem findLiveComment_some {comments : List CommentRow} {id : Nat}
    {c : CommentRow} (h : findLiveComment comments id = some c) :
    c ∈ comments ∧ c.deleted = false ∧ c.id = id := by
  have hmem := List.mem_of_find?_eq_some h
  have hp := List.find?_some h
  simp only [Bool.and_eq_true, Bool.not_eq_true', beq_iff_eq] at hp
  exact ⟨hmem, hp.1, hp.2⟩

theorem liveVotes_append (votes : List VoteRow) (v : VoteRow) (tid : Nat)
    (vt : Int) :
    liveVotes (votes ++ [v]) tid vt =
      liveVotes votes tid vt +
        (if !v.deleted && v.tier_id == tid && v.vote_type == vt
          then 1 else 0) := by
  unfold liveVotes
  rw [List.countP_append]
  simp [List.countP_cons]

theorem liveComments_append (comments : List CommentRow) (c : CommentRow)
    (tid : Nat) :
    liveComments (comments ++ [c]) tid =
      liveComments comments tid +
        (if !c.deleted && c.tier_id == tid then 1 else 0) := by
  unfold liveComments
  rw [List.countP_append]
  simp [List.countP_cons]

theorem liveVotes_markDeleted {votes : List VoteRow} {ex : VoteRow}
    (hnd : (votes.map VoteRow.id).Nodup) (hmem : ex ∈ votes)
    (hlive : ex.deleted = false) (tid : Nat) (vt : Int) :
    liveVotes (markVoteDeleted votes ex.id) tid vt +
        (if ex.tier_id == tid && ex.vote_type == vt then 1 else 0)
      = liveVotes votes tid vt := by
  unfold liveVotes markVoteDeleted
  have h := countP_updWhere_key
    (fun v => !v.deleted && v.tier_id == tid && v.vote_type == vt)
    (fun v => v.id == ex.id && !v.deleted)
    (fun v => { v with deleted := true })
    VoteRow.id ex.id
    (by intro x hx; simp only [Bool.and_eq_true, beq_iff_eq] at hx; exact hx.1)
    votes hnd ex hmem (by simp [hlive])
  simp only [hlive] at h
  simpa using h

theorem liveVotes_setType {votes : List VoteRow} {ex : VoteRow}
    (hnd : (votes.map VoteRow.id).Nodup) (hmem : ex ∈ votes)
    (hlive : ex.deleted = false) (vt' : Int) (tid : Nat) (vt : Int) :
    liveVotes (setVoteType votes ex.id vt') tid vt +
        (if ex.tier_id == tid && ex.vote_type == vt then 1 else 0)
      = liveVotes votes tid vt +
        (if ex.tier_id == tid && vt' == vt then 1 else 0) := by
  unfold liveVotes setVoteType
  have h := countP_updWhere_key
    (fun v => !v.deleted && v.tier_id == tid && v.vote_type == vt)
    (fun v => v.id == ex.id && !v.deleted)
    (fun v => { v with vote_type := vt' })
    VoteRow.id ex.id
    (by intro x hx; simp only [Bool.and_eq_true, beq_iff_eq] at hx; exact hx.1)
    votes hnd ex hmem (by simp [hlive])
  simp only [hlive] at h
  simpa using h

theorem liveComments_markDeleted {comments : List CommentRow} {c : CommentRow}
    (hnd : (comments.map CommentRow.id).Nodup) (hmem : c ∈ comments)
    (hlive : c.deleted = false) (tid : Nat) :
    liveComments (markCommentDeleted comments c.id) tid +
        (if c.tier_id == tid then 1 else 0)
      = liveComments comments tid := by
  unfold liveComments markCommentDeleted
  have h := countP_updWhere_key
    (fun x => !x.deleted && x.tier_id == tid)
    (fun x => x.id == c.id && !x.deleted)
    (fun x => { x with deleted := true })
    CommentRow.id c.id
    (by intro x hx; simp only [Bool.and_eq_true, beq_iff_eq] at hx; exact hx.1)
    comments hnd c hmem (by simp [hlive])
  simp only [hlive] at h
  simpa using h

/-! ### Preservation of well-formedness and the counter invariant -/

theorem adjustTier_map_id (tiers : List TierRow) (t : Nat) (g : TierRow → TierRow)
    (hg : ∀ tr, (g tr).id = tr.id) :
    (adjustTier tiers t g).map TierRow.id = tiers.map TierRow.id := by
  unfold adjustTier
  exact map_updWhere_of_preserved _ g TierRow.id hg tiers

theorem adjustTier_adjustTier (tiers : List TierRow) (t : Nat)
    (g₁ g₂ : TierRow → TierRow) (hid : ∀ tr, (g₁ tr).id = tr.id)
    (hdel : ∀ tr, (g₁ tr).deleted = tr.deleted) :
    adjustTier (adjustTier tiers t g₁) t g₂
      = adjustTier tiers t (fun tr => g₂ (g₁ tr)) := by
  unfold adjustTier updWhere
  rw [List.map_map]
  refine List.map_congr_left ?_
  intro tr _
  by_cases hs : (tr.id == t && !tr.deleted) = true
  · simp only [Function.comp_apply, hs, if_true]
    have : ((g₁ tr).id == t && !(g₁ tr).deleted) = true := by
      rw [hid, hdel]; exact hs
    simp [this]
  · simp only [Function.comp_apply, if_neg hs]

theorem WFOK_voteCreate (tiers : List TierRow) (votes : List VoteRow)
    (comments : List CommentRow) (nvi nci : Nat) (u t : Nat) (vt : Int)
    (hvt : vt = 1 ∨ vt = -1) (hpair : votePairTaken votes u t = false)
    (hWF : WF ⟨tiers, votes, comments, nvi, nci⟩)
    (hOK : countersOK ⟨tiers, votes, comments, nvi, nci⟩) :
    WF ⟨(if vt = 1 then adjustTier tiers t (addUp 1)
         else adjustTier tiers t (addDown 1)),
        votes ++ [⟨nvi, u, t, vt, false⟩], comments, nvi + 1, nci⟩ ∧
    countersOK ⟨(if vt = 1 then adjustTier tiers t (addUp 1)
         else adjustTier tiers t (addDown 1)),
        votes ++ [⟨nvi, u, t, vt, false⟩], comments, nvi + 1, nci⟩ := by
  obtain ⟨hTid, hVid, hCid, hPair, hVb, hCb, hVt, hTl⟩ := hWF
  simp only [countersOK] at hOK
  have hpair' : ∀ w ∈ votes, (w.user_id == u && w.tier_id == t) = false := by
    intro w hw
    by_contra hcon
    have hx : (w.user_id == u && w.tier_id == t) = true := by
      cases hx : (w.user_id == u && w.tier_id == t)
      · exact absurd hx hcon
      · rfl
    have : votePairTaken votes u t = true :=
      List.any_eq_true.mpr ⟨w, hw, hx⟩
    rw [this] at hpair
    exact Bool.true_eq_false.mp hpair
  -- the tier update of either branch, as one function
  have hsplit : (if vt = 1 then adjustTier tiers t (addUp 1)
      else adjustTier tiers t (addDown 1))
      = adjustTier tiers t (fun tr => if vt = 1 then addUp 1 tr else addDown 1 tr) := by
    rcases hvt with rfl | rfl
    · norm_num
    · norm_num
  rw [hsplit]
  set g : TierRow → TierRow :=
    fun tr => if vt = 1 then addUp 1 tr else addDown 1 tr with hg
  have hgid : ∀ tr, (g tr).id = tr.id := by
    intro tr; rw [hg]; rcases hvt with rfl | rfl <;> norm_num <;> rfl
  have hgdel : ∀ tr, (g tr).deleted = tr.deleted := by
    intro tr; rw [hg]; rcases hvt with rfl | rfl <;> norm_num <;> rfl
  have hgcom : ∀ tr, (g tr).comment_count = tr.comment_count := by
    intro tr; rw [hg]; rcases hvt with rfl | rfl <;> norm_num <;> rfl
  refine ⟨⟨?_, ?_, hCid, ?_, ?_, hCb, ?_, ?_⟩, ?_⟩
  · -- tier primary keys stay distinct
    rw [adjustTier_map_id tiers t g hgid]; exact hTid
  · -- vote primary keys stay distinct
    exact nodup_map_append_singleton hVid
      (fun w hw => Nat.ne_of_lt (hVb w hw))
  · -- (user_id, tier_id) pairs stay distinct
    refine nodup_map_append_singleton hPair ?_
    intro w hw
    have := hpair' w hw
    simp only [Bool.and_eq_false_iff, beq_eq_false_iff_ne] at this
    intro hcon
    have h1 : w.user_id = u := congrArg Prod.fst hcon
    have h2 : w.tier_id = t := congrArg Prod.snd hcon
    rcases this with h | h
    · exact h h1
    · exact h h2
  · -- vote ids stay below the allocator
    intro w hw
    rcases List.mem_append.mp hw with h | h
    · exact Nat.lt_succ_of_lt (hVb w h)
    · rw [List.mem_singleton.mp h]; exact Nat.lt_succ_self _
  · -- vote types stay valid
    intro w hw
    rcases List.mem_append.mp hw with h | h
    · exact hVt w h
    · rw [List.mem_singleton.mp h]; exact hvt
  · -- no tier row becomes soft-deleted
    intro tr' htr'
    obtain ⟨tr, htr, hcase⟩ := mem_updWhere htr'
    rcases hcase with ⟨_, rfl⟩ | ⟨_, rfl⟩
    · rw [hgdel]; exact hTl tr htr
    · exact hTl _ htr
  · -- counters still mirror the live child counts
    intro tr' htr'
    obtain ⟨tr, htr, hcase⟩ := mem_updWhere htr'
    obtain ⟨hup, hdown, hcom⟩ := hOK tr htr
    have happ1 := liveVotes_append votes ⟨nvi, u, t, vt, false⟩ tr.id 1
    have happ2 := liveVotes_append votes ⟨nvi, u, t, vt, false⟩ tr.id (-1)
    simp only [Bool.not_false, Bool.true_and] at happ1 happ2
    rcases hcase with ⟨hsel, rfl⟩ | ⟨hsel, rfl⟩
    · simp only [Bool.and_eq_true, Bool.not_eq_true', beq_iff_eq] at hsel
      obtain ⟨hidt, hlivetr⟩ := hsel
      subst hidt
      simp only [beq_self_eq_true, Bool.true_and] at happ1 happ2
      refine ⟨?_, ?_, ?_⟩
      · show (g tr).upvote_count
          = ((liveVotes (votes ++ [⟨nvi, u, tr.id, vt, false⟩]) (g tr).id 1 : Nat) : Int)
        rw [hgid, happ1, hg]
        rcases hvt with rfl | rfl <;> norm_num [addUp, addDown] <;> omega
      · show (g tr).downvote_count
          = ((liveVotes (votes ++ [⟨nvi, u, tr.id, vt, false⟩]) (g tr).id (-1) : Nat) : Int)
        rw [hgid, happ2, hg]
        rcases hvt with rfl | rfl <;> norm_num [addUp, addDown] <;> omega
      · show (g tr).comment_count
          = ((liveComments comments (g tr).id : Nat) : Int)
        rw [hgid, hgcom]; exact hcom
    · have hne : tr'.id ≠ t := by
        intro hcon
        have hld := hTl tr' htr
        rw [hcon, hld] at hsel
        simp at hsel
      have hbeq : (t == tr'.id) = false := by
        simp only [beq_eq_false_iff_ne]
        exact fun hcon => hne hcon.symm
      simp only [hbeq, Bool.false_and, Bool.and_false, if_false,
        Nat.add_zero] at happ1 happ2
      exact ⟨by rw [happ1]; exact hup, by rw [happ2]; exact hdown, hcom⟩

theorem WFOK_voteToggle (tiers : List TierRow) (votes : List VoteRow)
    (comments : List CommentRow) (nvi nci : Nat) (t : Nat) (ex : VoteRow)
    (hmem : ex ∈ votes) (hlive : ex.deleted = false) (ht : ex.tier_id = t)
    (hWF : WF ⟨tiers, votes, comments, nvi, nci⟩)
    (hOK : countersOK ⟨tiers, votes, comments, nvi, nci⟩) :
    WF ⟨(if ex.vote_type = 1 then adjustTier tiers t (addUp (-1))
         else adjustTier tiers t (addDown (-1))),
        markVoteDeleted votes ex.id, comments, nvi, nci⟩ ∧
    countersOK ⟨(if ex.vote_type = 1 then adjustTier tiers t (addUp (-1))
         else adjustTier tiers t (addDown (-1))),
        markVoteDeleted votes ex.id, comments, nvi, nci⟩ := by
  obtain ⟨hTid, hVid, hCid, hPair, hVb, hCb, hVt, hTl⟩ := hWF
  simp only [countersOK] at hOK
  have hvt := hVt ex hmem
  have hsplit : (if ex.vote_type = 1 then adjustTier tiers t (addUp (-1))
      else adjustTier tiers t (addDown (-1)))
      = adjustTier tiers t
          (fun tr => if ex.vote_type = 1 then addUp (-1) tr else addDown (-1) tr) := by
    rcases hvt with h | h
    · rw [if_pos h]
      unfold adjustTier
      refine congrArg (fun g => updWhere _ g tiers) ?_
      funext tr; rw [if_pos h]
    · rw [if_neg (by rw [h]; norm_num)]
      unfold adjustTier
      refine congrArg (fun g => updWhere _ g tiers) ?_
      funext tr; rw [if_neg (by rw [h]; norm_num)]
  rw [hsplit]
  set g : TierRow → TierRow :=
    fun tr => if ex.vote_type = 1 then addUp (-1) tr else addDown (-1) tr with hg
  have hgid : ∀ tr, (g tr).id = tr.id := by
    intro tr; rw [hg]; rcases hvt with h | h <;> simp [h, addUp, addDown]
  have hgdel : ∀ tr, (g tr).deleted = tr.deleted := by
    intro tr; rw [hg]; rcases hvt with h | h <;> simp [h, addUp, addDown]
  have hgcom : ∀ tr, (g tr).comment_count = tr.comment_count := by
    intro tr; rw [hg]; rcases hvt with h | h <;> simp [h, addUp, addDown]
  have hVmap : ∀ w' ∈ markVoteDeleted votes ex.id, ∃ w ∈ votes,
      w'.id = w.id ∧ w'.vote_type = w.vote_type := by
    intro w' hw'
    obtain ⟨w, hw, hcase⟩ := mem_updWhere hw'
    rcases hcase with ⟨_, rfl⟩ | ⟨_, rfl⟩
    · exact ⟨w, hw, rfl, rfl⟩
    · exact ⟨w', hw, rfl, rfl⟩
  have hVidEq : (markVoteDeleted votes ex.id).map VoteRow.id
      = votes.map VoteRow.id := by
    unfold markVoteDeleted
    exact map_updWhere_of_preserved _ (fun v => { v with deleted := true })
      VoteRow.id (fun _ => rfl) votes
  have hPairEq : (markVoteDeleted votes ex.id).map (fun v => (v.user_id, v.tier_id))
      = votes.map (fun v => (v.user_id, v.tier_id)) := by
    unfold markVoteDeleted
    exact map_updWhere_of_preserved _ (fun v => { v with deleted := true })
      (fun v => (v.user_id, v.tier_id)) (fun _ => rfl) votes
  refine ⟨⟨?_, ?_, hCid, ?_, ?_, hCb, ?_, ?_⟩, ?_⟩
  · rw [adjustTier_map_id tiers t g hgid]; exact hTid
  · rw [hVidEq]; exact hVid
  · rw [hPairEq]; exact hPair
  · intro w' hw'
    obtain ⟨w, hw, hid, _⟩ := hVmap w' hw'
    rw [hid]; exact hVb w hw
  · intro w' hw'
    obtain ⟨w, hw, _, hvtw⟩ := hVmap w' hw'
    rw [hvtw]; exact hVt w hw
  · intro tr' htr'
    obtain ⟨tr, htr, hcase⟩ := mem_updWhere htr'
    rcases hcase with ⟨_, rfl⟩ | ⟨_, rfl⟩
    · rw [hgdel]; exact hTl tr htr
    · exact hTl _ htr
  · intro tr' htr'
    obtain ⟨tr, htr, hcase⟩ := mem_updWhere htr'
    obtain ⟨hup, hdown, hcom⟩ := hOK tr htr
    have hm1 := liveVotes_markDeleted hVid hmem hlive tr.id 1
    have hm2 := liveVotes_markDeleted hVid hmem hlive tr.id (-1)
    rcases hcase with ⟨hsel, rfl⟩ | ⟨hsel, rfl⟩
    · simp only [Bool.and_eq_true, Bool.not_eq_true', beq_iff_eq] at hsel
      obtain ⟨hidt, hlivetr⟩ := hsel
      subst hidt
      have htb : (ex.tier_id == tr.id) = true := by
        simp only [beq_iff_eq]; exact ht
      simp only [htb, Bool.true_and] at hm1 hm2
      refine ⟨?_, ?_, ?_⟩
      · show (g tr).upvote_count
          = ((liveVotes (markVoteDeleted votes ex.id) (g tr).id 1 : Nat) : Int)
        rw [hgid, hg]
        rcases hvt with h | h <;>
          simp only [h, if_pos, if_neg, addUp, addDown] <;> norm_num <;>
          simp only [h] at hm1 <;> norm_num at hm1 <;> omega
      · show (g tr).downvote_count
          = ((liveVotes (markVoteDeleted votes ex.id) (g tr).id (-1) : Nat) : Int)
        rw [hgid, hg]
        rcases hvt with h | h <;>
          simp only [h, if_pos, if_neg, addUp, addDown] <;> norm_num <;>
          simp only [h] at hm2 <;> norm_num at hm2 <;> omega
      · show (g tr).comment_count = ((liveComments comments (g tr).id : Nat) : Int)
        rw [hgid, hgcom]; exact hcom
    · have hne : tr'.id ≠ t := by
        intro hcon
        have hld := hTl tr' htr
        rw [hcon, hld] at hsel
        simp at hsel
      have htb : (ex.tier_id == tr'.id) = false := by
        simp only [beq_eq_false_iff_ne]
        rw [ht]
        exact fun hcon => hne hcon.symm
      simp only [htb, Bool.false_and] at hm1 hm2
      norm_num at hm1 hm2
      exact ⟨by rw [hm1]; exact hup, by rw [hm2]; exact hdown, hcom⟩

theorem WFOK_voteSwitch (tiers : List TierRow) (votes : List VoteRow)
    (comments : List CommentRow) (nvi nci : Nat) (t : Nat) (ex : VoteRow)
    (newVt : Int) (hmem : ex ∈ votes) (hlive : ex.deleted = false)
    (ht : ex.tier_id = t) (hnew : newVt = 1 ∨ newVt = -1)
    (hdiff : ex.vote_type ≠ newVt)
    (hWF : WF ⟨tiers, votes, comments, nvi, nci⟩)
    (hOK : countersOK ⟨tiers, votes, comments, nvi, nci⟩) :
    WF ⟨(if ex.vote_type = 1
          then adjustTier (adjustTier tiers t (addUp (-1))) t (addDown 1)
          else adjustTier (adjustTier tiers t (addDown (-1))) t (addUp 1)),
        setVoteType votes ex.id newVt, comments, nvi, nci⟩ ∧
    countersOK ⟨(if ex.vote_type = 1
          then adjustTier (adjustTier tiers t (addUp (-1))) t (addDown 1)
          else adjustTier (adjustTier tiers t (addDown (-1))) t (addUp 1)),
        setVoteType votes ex.id newVt, comments, nvi, nci⟩ := by
  obtain ⟨hTid, hVid, hCid, hPair, hVb, hCb, hVt, hTl⟩ := hWF
  simp only [countersOK] at hOK
  have hvt := hVt ex hmem
  have hcases : (ex.vote_type = 1 ∧ newVt = -1) ∨
      (ex.vote_type = -1 ∧ newVt = 1) := by
    rcases hvt with h | h <;> rcases hnew with h' | h'
    · exact absurd (h.trans h'.symm) hdiff
    · exact Or.inl ⟨h, h'⟩
    · exact Or.inr ⟨h, h'⟩
    · exact absurd (h.trans h'.symm) hdiff
  have hsplit : (if ex.vote_type = 1
        then adjustTier (adjustTier tiers t (addUp (-1))) t (addDown 1)
        else adjustTier (adjustTier tiers t (addDown (-1))) t (addUp 1))
      = adjustTier tiers t
          (fun tr => if ex.vote_type = 1 then addDown 1 (addUp (-1) tr)
                     else addUp 1 (addDown (-1) tr)) := by
    rcases hvt with h | h
    · rw [if_pos h,
        adjustTier_adjustTier tiers t (addUp (-1)) (addDown 1)
          (fun _ => rfl) (fun _ => rfl)]
      unfold adjustTier
      refine congrArg (fun f => updWhere _ f tiers) ?_
      funext tr; rw [if_pos h]
    · rw [if_neg (by rw [h]; norm_num),
        adjustTier_adjustTier tiers t (addDown (-1)) (addUp 1)
          (fun _ => rfl) (fun _ => rfl)]
      unfold adjustTier
      refine congrArg (fun f => updWhere _ f tiers) ?_
      funext tr; rw [if_neg (by rw [h]; norm_num)]
  rw [hsplit]
  set g : TierRow → TierRow :=
    fun tr => if ex.vote_type = 1 then addDown 1 (addUp (-1) tr)
              else addUp 1 (addDown (-1) tr) with hg
  have hgid : ∀ tr, (g tr).id = tr.id := by
    intro tr; rw [hg]; rcases hvt with h | h <;> simp [h, addUp, addDown]
  have hgdel : ∀ tr, (g tr).deleted = tr.deleted := by
    intro tr; rw [hg]; rcases hvt with h | h <;> simp [h, addUp, addDown]
  have hgcom : ∀ tr, (g tr).comment_count = tr.comment_count := by
    intro tr; rw [hg]; rcases hvt with h | h <;> simp [h, addUp, addDown]
  have hVmap : ∀ w' ∈ setVoteType votes ex.id newVt, ∃ w ∈ votes,
      w'.id = w.id ∧ (w'.vote_type = w.vote_type ∨ w'.vote_type = newVt) := by
    intro w' hw'
    obtain ⟨w, hw, hcase⟩ := mem_updWhere hw'
    rcases hcase with ⟨_, rfl⟩ | ⟨_, rfl⟩
    · exact ⟨w, hw, rfl, Or.inr rfl⟩
    · exact ⟨w', hw, rfl, Or.inl rfl⟩
  have hVidEq : (setVoteType votes ex.id newVt).map VoteRow.id
      = votes.map VoteRow.id := by
    unfold setVoteType
    exact map_updWhere_of_preserved _ (fun v => { v with vote_type := newVt })
      VoteRow.id (fun _ => rfl) votes
  have hPairEq : (setVoteType votes ex.id newVt).map (fun v => (v.user_id, v.tier_id))
      = votes.map (fun v => (v.user_id, v.tier_id)) := by
    unfold setVoteType
    exact map_updWhere_of_preserved _ (fun v => { v with vote_type := newVt })
      (fun v => (v.user_id, v.tier_id)) (fun _ => rfl) votes
  refine ⟨⟨?_, ?_, hCid, ?_, ?_, hCb, ?_, ?_⟩, ?_⟩
  · rw [adjustTier_map_id tiers t g hgid]; exact hTid
  · rw [hVidEq]; exact hVid
  · rw [hPairEq]; exact hPair
  · intro w' hw'
    obtain ⟨w, hw, hid, _⟩ := hVmap w' hw'
    rw [hid]; exact hVb w hw
  · intro w' hw'
    obtain ⟨w, hw, _, hvtw⟩ := hVmap w' hw'
    rcases hvtw with h | h
    · rw [h]; exact hVt w hw
    · rw [h]; exact hnew
  · intro tr' htr'
    obtain ⟨tr, htr, hcase⟩ := mem_updWhere htr'
    rcases hcase with ⟨_, rfl⟩ | ⟨_, rfl⟩
    · rw [hgdel]; exact hTl tr htr
    · exact hTl _ htr
  · intro tr' htr'
    obtain ⟨tr, htr, hcase⟩ := mem_updWhere htr'
    obtain ⟨hup, hdown, hcom⟩ := hOK tr htr
    have hs1 := liveVotes_setType hVid hmem hlive newVt tr.id 1
    have hs2 := liveVotes_setType hVid hmem hlive newVt tr.id (-1)
    rcases hcase with ⟨hsel, rfl⟩ | ⟨hsel, rfl⟩
    · simp only [Bool.and_eq_true, Bool.not_eq_true', beq_iff_eq] at hsel
      obtain ⟨hidt, hlivetr⟩ := hsel
      subst hidt
      have htb : (ex.tier_id == tr.id) = true := by
        simp only [beq_iff_eq]; exact ht
      simp only [htb, Bool.true_and] at hs1 hs2
      rcases hcases with ⟨h1, hn⟩ | ⟨h1, hn⟩
      · subst hn
        simp only [h1] at hs1 hs2
        norm_num at hs1 hs2
        refine ⟨?_, ?_, ?_⟩
        · show (g tr).upvote_count
            = ((liveVotes (setVoteType votes ex.id (-1)) (g tr).id 1 : Nat) : Int)
          rw [hgid, hg]
          simp only [h1, if_pos, addUp, addDown]
          omega
        · show (g tr).downvote_count
            = ((liveVotes (setVoteType votes ex.id (-1)) (g tr).id (-1) : Nat) : Int)
          rw [hgid, hg]
          simp only [h1, if_pos, addUp, addDown]
          omega
        · show (g tr).comment_count = ((liveComments comments (g tr).id : Nat) : Int)
          rw [hgid, hgcom]; exact hcom
      · subst hn
        simp only [h1] at hs1 hs2
        norm_num at hs1 hs2
        refine ⟨?_, ?_, ?_⟩
        · show (g tr).upvote_count
            = ((liveVotes (setVoteType votes ex.id 1) (g tr).id 1 : Nat) : Int)
          rw [hgid, hg]
          simp only [h1, addUp, addDown]
          norm_num
          omega
        · show (g tr).downvote_count
            = ((liveVotes (setVoteType votes ex.id 1) (g tr).id (-1) : Nat) : Int)
          rw [hgid, hg]
          simp only [h1, addUp, addDown]
          norm_num
          omega
        · show (g tr).comment_count = ((liveComments comments (g tr).id : Nat) : Int)
          rw [hgid, hgcom]; exact hcom
    · have hne : tr'.id ≠ t := by
        intro hcon
        have hld := hTl tr' htr
        rw [hcon, hld] at hsel
        simp at hsel
      have htb : (ex.tier_id == tr'.id) = false := by
        simp only [beq_eq_false_iff_ne]
        rw [ht]
        exact fun hcon => hne hcon.symm
      simp only [htb, Bool.false_and] at hs1 hs2
      norm_num at hs1 hs2
      exact ⟨by rw [hs1]; exact hup, by rw [hs2]; exact hdown, hcom⟩

theorem WFOK_commentCreate (tiers : List TierRow) (votes : List VoteRow)
    (comments : List CommentRow) (nvi nci : Nat) (u t : Nat) (content : String)
    (hWF : WF ⟨tiers, votes, comments, nvi, nci⟩)
    (hOK : countersOK ⟨tiers, votes, comments, nvi, nci⟩) :
    WF ⟨adjustTier tiers t (addCom 1), votes,
        comments ++ [⟨nci, u, t, content, false⟩], nvi, nci + 1⟩ ∧
    countersOK ⟨adjustTier tiers t (addCom 1), votes,
        comments ++ [⟨nci, u, t, content, false⟩], nvi, nci + 1⟩ := by
  obtain ⟨hTid, hVid, hCid, hPair, hVb, hCb, hVt, hTl⟩ := hWF
  simp only [countersOK] at hOK
  refine ⟨⟨?_, hVid, ?_, hPair, hVb, ?_, hVt, ?_⟩, ?_⟩
  · rw [adjustTier_map_id tiers t (addCom 1) (fun _ => rfl)]; exact hTid
  · exact nodup_map_append_singleton hCid
      (fun w hw => Nat.ne_of_lt (hCb w hw))
  · intro w hw
    rcases List.mem_append.mp hw with h | h
    · exact Nat.lt_succ_of_lt (hCb w h)
    · rw [List.mem_singleton.mp h]; exact Nat.lt_succ_self _
  · intro tr' htr'
    obtain ⟨tr, htr, hcase⟩ := mem_updWhere htr'
    rcases hcase with ⟨_, rfl⟩ | ⟨_, rfl⟩
    · exact hTl tr htr
    · exact hTl _ htr
  · intro tr' htr'
    obtain ⟨tr, htr, hcase⟩ := mem_updWhere htr'
    obtain ⟨hup, hdown, hcom⟩ := hOK tr htr
    have happ := liveComments_append comments ⟨nci, u, t, content, false⟩ tr.id
    simp only [Bool.not_false, Bool.true_and] at happ
    rcases hcase with ⟨hsel, rfl⟩ | ⟨hsel, rfl⟩
    · simp only [Bool.and_eq_true, Bool.not_eq_true', beq_iff_eq] at hsel
      obtain ⟨hidt, hlivetr⟩ := hsel
      subst hidt
      simp only [beq_self_eq_true, if_true] at happ
      refine ⟨hup, hdown, ?_⟩
      show (addCom 1 tr).comment_count
        = ((liveComments (comments ++ [⟨nci, u, tr.id, content, false⟩]) tr.id : Nat) : Int)
      rw [happ]
      simp only [addCom]
      push_cast
      omega
    · have hne : tr'.id ≠ t := by
        intro hcon
        have hld := hTl tr' htr
        rw [hcon, hld] at hsel
        simp at hsel
      have hbeq : (t == tr'.id) = false := by
        simp only [beq_eq_false_iff_ne]
        exact fun hcon => hne hcon.symm
      simp only [hbeq, if_false, Nat.add_zero] at happ
      exact ⟨hup, hdown, by rw [happ]; exact hcom⟩

theorem WFOK_commentRetract (tiers : List TierRow) (votes : List VoteRow)
    (comments : List CommentRow) (nvi nci : Nat) (c : CommentRow)
    (hmem : c ∈ comments) (hlive : c.deleted = false)
    (hWF : WF ⟨tiers, votes, comments, nvi, nci⟩)
    (hOK : countersOK ⟨tiers, votes, comments, nvi, nci⟩) :
    WF ⟨adjustTier tiers c.tier_id (addCom (-1)), votes,
        markCommentDeleted comments c.id, nvi, nci⟩ ∧
    countersOK ⟨adjustTier tiers c.tier_id (addCom (-1)), votes,
        markCommentDeleted comments c.id, nvi, nci⟩ := by
  obtain ⟨hTid, hVid, hCid, hPair, hVb, hCb, hVt, hTl⟩ := hWF
  simp only [countersOK] at hOK
  have hCidEq : (markCommentDeleted comments c.id).map CommentRow.id
      = comments.map CommentRow.id := by
    unfold markCommentDeleted
    exact map_updWhere_of_preserved _ (fun x => { x with deleted := true })
      CommentRow.id (fun _ => rfl) comments
  refine ⟨⟨?_, hVid, ?_, hPair, hVb, ?_, hVt, ?_⟩, ?_⟩
  · rw [adjustTier_map_id tiers c.tier_id (addCom (-1)) (fun _ => rfl)]
    exact hTid
  · rw [hCidEq]; exact hCid
  · intro w' hw'
    obtain ⟨w, hw, hcase⟩ := mem_updWhere hw'
    rcases hcase with ⟨_, rfl⟩ | ⟨_, rfl⟩
    · exact hCb w hw
    · exact hCb _ hw
  · intro tr' htr'
    obtain ⟨tr, htr, hcase⟩ := mem_updWhere htr'
    rcases hcase with ⟨_, rfl⟩ | ⟨_, rfl⟩
    · exact hTl tr htr
    · exact hTl _ htr
  · intro tr' htr'
    obtain ⟨tr, htr, hcase⟩ := mem_updWhere htr'
    obtain ⟨hup, hdown, hcom⟩ := hOK tr htr
    have hm := liveComments_markDeleted hCid hmem hlive tr.id
    rcases hcase with ⟨hsel, rfl⟩ | ⟨hsel, rfl⟩
    · simp only [Bool.and_eq_true, Bool.not_eq_true', beq_iff_eq] at hsel
      obtain ⟨hidt, hlivetr⟩ := hsel
      have htb : (c.tier_id == tr.id) = true := by
        simp only [beq_iff_eq]; exact hidt.symm
      simp only [htb, if_true] at hm
      refine ⟨hup, hdown, ?_⟩
      show (addCom (-1) tr).comment_count
        = ((liveComments (markCommentDeleted comments c.id) tr.id : Nat) : Int)
      simp only [addCom]
      omega
    · have hne : tr'.id ≠ c.tier_id := by
        intro hcon
        have hld := hTl tr' htr
        rw [hcon, hld] at hsel
        simp at hsel
      have hbeq : (c.tier_id == tr'.id) = false := by
        simp only [beq_eq_false_iff_ne]
        exact fun hcon => hne hcon.symm
      simp only [hbeq] at hm
      norm_num at hm
      exact ⟨hup, hdown, by rw [hm]; exact hcom⟩

theorem VoteTier_preserves (oracle : Nat → Bool) (db : DB) (req : VoteRequest)
    (hWF : WF db) (hOK : countersOK db) :
    WF (VoteTier oracle db req).db ∧ countersOK (VoteTier oracle db req).db := by
  unfold VoteTier
  by_cases hval : req.vote_type ≠ 1 ∧ req.vote_type ≠ -1
  · rw [if_pos hval]; exact ⟨hWF, hOK⟩
  · rw [if_neg hval]
    have hvt : req.vote_type = 1 ∨ req.vote_type = -1 := by
      rcases not_and_or.mp hval with h | h
      · exact Or.inl (not_not.mp h)
      · exact Or.inr (not_not.mp h)
    by_cases h0 : oracle 0 = true
    · rw [if_pos h0]; exact ⟨hWF, hOK⟩
    · rw [if_neg h0]
      cases hfind : findLiveVote db.votes req.user_id req.tier_id with
      | none =>
        by_cases h1 : (oracle 1 || votePairTaken db.votes req.user_id req.tier_id) = true
        · rw [if_pos h1]; exact ⟨hWF, hOK⟩
        · rw [if_neg h1]
          have hpair : votePairTaken db.votes req.user_id req.tier_id = false := by
            rcases Bool.or_eq_false_iff.mp (Bool.eq_false_iff.mpr h1) with ⟨_, h⟩
            exact h
          dsimp only
          by_cases h2 : oracle 2 = true
          · rw [if_pos h2]; exact ⟨hWF, hOK⟩
          · rw [if_neg h2]
            exact WFOK_voteCreate db.tiers db.votes db.comments db.nextVoteId
              db.nextCommentId req.user_id req.tier_id req.vote_type hvt hpair
              hWF hOK
      | some ex =>
        obtain ⟨hmem, hlive, hu, ht⟩ := findLiveVote_some hfind
        dsimp only
        by_cases heq : ex.vote_type = req.vote_type
        · rw [if_pos heq]
          by_cases h1 : oracle 1 = true
          · rw [if_pos h1]; exact ⟨hWF, hOK⟩
          · rw [if_neg h1]
            by_cases h2 : oracle 2 = true
            · rw [if_pos h2]; exact ⟨hWF, hOK⟩
            · rw [if_neg h2]
              exact WFOK_voteToggle db.tiers db.votes db.comments db.nextVoteId
                db.nextCommentId req.tier_id ex hmem hlive ht hWF hOK
        · rw [if_neg heq]
          by_cases h1 : oracle 1 = true
          · rw [if_pos h1]; exact ⟨hWF, hOK⟩
          · rw [if_neg h1]
            by_cases h23 : (oracle 2 || oracle 3) = true
            · rw [if_pos h23]; exact ⟨hWF, hOK⟩
            · rw [if_neg h23]
              exact WFOK_voteSwitch db.tiers db.votes db.comments db.nextVoteId
                db.nextCommentId req.tier_id ex req.vote_type hmem hlive ht hvt
                heq hWF hOK

theorem CreateComment_preserves (oracle : Nat → Bool) (db : DB)
    (user_id tier_id : Nat) (content : String)
    (hWF : WF db) (hOK : countersOK db) :
    WF (CreateComment oracle db user_id tier_id content).db ∧
    countersOK (CreateComment oracle db user_id tier_id content).db := by
  unfold CreateComment
  by_cases hlen : content.utf8ByteSize = 0 ∨ content.utf8ByteSize > 100
  · rw [if_pos hlen]; exact ⟨hWF, hOK⟩
  · rw [if_neg hlen]
    by_cases h0 : oracle 0 = true
    · rw [if_pos h0]; exact ⟨hWF, hOK⟩
    · rw [if_neg h0]
      dsimp only
      by_cases h1 : oracle 1 = true
      · rw [if_pos h1]; exact ⟨hWF, hOK⟩
      · rw [if_neg h1]
        exact WFOK_commentCreate db.tiers db.votes db.comments db.nextVoteId
          db.nextCommentId user_id tier_id content hWF hOK

theorem DeleteComment_preserves (oracle : Nat → Bool) (db : DB) (id : Nat)
    (hWF : WF db) (hOK : countersOK db) :
    WF (DeleteComment oracle db id).db ∧
    countersOK (DeleteComment oracle db id).db := by
  unfold DeleteComment
  by_cases h0 : oracle 0 = true
  · rw [if_pos h0]; exact ⟨hWF, hOK⟩
  · rw [if_neg h0]
    cases hfind : findLiveComment db.comments id with
    | none => exact ⟨hWF, hOK⟩
    | some c =>
      obtain ⟨hmem, hlive, _⟩ := findLiveComment_some hfind
      dsimp only
      by_cases h1 : oracle 1 = true
      · rw [if_pos h1]; exact ⟨hWF, hOK⟩
      · rw [if_neg h1]
        by_cases h2 : oracle 2 = true
        · rw [if_pos h2]; exact ⟨hWF, hOK⟩
        · rw [if_neg h2]
          exact WFOK_commentRetract db.tiers db.votes db.comments db.nextVoteId
            db.nextCommentId c hmem hlive hWF hOK

theorem step_preserves (db : DB) (op : Op)
    (h : WF db ∧ countersOK db) :
    WF (step db op) ∧ countersOK (step db op) := by
  cases op with
  | vote oracle req => exact VoteTier_preserves oracle db req h.1 h.2
  | comment oracle u t content =>
    exact CreateComment_preserves oracle db u t content h.1 h.2
  | retract oracle id => exact DeleteComment_preserves oracle db id h.1 h.2

theorem run_preserves (ops : List Op) : ∀ (db : DB),
    WF db ∧ countersOK db → WF (run db ops) ∧ countersOK (run db ops) := by
  induction ops with
  | nil => intro db h; exact h
  | cons op ops ih =>
    intro db h
    exact ih (step db op) (step_preserves db op h)

/-! ### Exact results of the handlers on each path, with no injected failure -/

theorem VoteTier_noFail_create (db : DB) (u t : Nat) (vt : Int)
    (hvt : vt = 1 ∨ vt = -1)
    (hnone : findLiveVote db.votes u t = none)
    (hpair : votePairTaken db.votes u t = false) :
    VoteTier noFail db ⟨u, t, vt⟩ =
      ⟨.created ⟨db.nextVoteId, u, t, vt, false⟩,
       { db with
          votes := db.votes ++ [⟨db.nextVoteId, u, t, vt, false⟩]
          tiers := if vt = 1 then adjustTier db.tiers t (addUp 1)
                   else adjustTier db.tiers t (addDown 1)
          nextVoteId := db.nextVoteId + 1 },
       false⟩ := by
  have hval : ¬((⟨u, t, vt⟩ : VoteRequest).vote_type ≠ 1 ∧
      (⟨u, t, vt⟩ : VoteRequest).vote_type ≠ -1) := by
    rcases hvt with h | h <;> simp [h]
  unfold VoteTier
  rw [if_neg hval, if_neg (by simp [noFail])]
  show (match findLiveVote db.votes u t with
        | none => _
        | some existingVote => _) = _
  rw [hnone]
  dsimp only
  rw [if_neg (by simp [noFail, hpair]), if_neg (by simp [noFail])]

theorem VoteTier_noFail_conflict (db : DB) (u t : Nat) (vt : Int)
    (hvt : vt = 1 ∨ vt = -1)
    (hnone : findLiveVote db.votes u t = none)
    (hpair : votePairTaken db.votes u t = true) :
    VoteTier noFail db ⟨u, t, vt⟩ = ⟨.storageFailure, db, true⟩ := by
  have hval : ¬((⟨u, t, vt⟩ : VoteRequest).vote_type ≠ 1 ∧
      (⟨u, t, vt⟩ : VoteRequest).vote_type ≠ -1) := by
    rcases hvt with h | h <;> simp [h]
  unfold VoteTier
  rw [if_neg hval, if_neg (by simp [noFail])]
  show (match findLiveVote db.votes u t with
        | none => _
        | some existingVote => _) = _
  rw [hnone]
  dsimp only
  rw [if_pos (by simp [noFail, hpair])]

theorem VoteTier_noFail_toggle (db : DB) (u t : Nat) (vt : Int) (ex : VoteRow)
    (hvt : vt = 1 ∨ vt = -1)
    (hfind : findLiveVote db.votes u t = some ex)
    (heq : ex.vote_type = vt) :
    VoteTier noFail db ⟨u, t, vt⟩ =
      ⟨.removed,
       { db with
          votes := markVoteDeleted db.votes ex.id
          tiers := if ex.vote_type = 1 then adjustTier db.tiers t (addUp (-1))
                   else adjustTier db.tiers t (addDown (-1)) },
       false⟩ := by
  have hval : ¬((⟨u, t, vt⟩ : VoteRequest).vote_type ≠ 1 ∧
      (⟨u, t, vt⟩ : VoteRequest).vote_type ≠ -1) := by
    rcases hvt with h | h <;> simp [h]
  unfold VoteTier
  rw [if_neg hval, if_neg (by simp [noFail])]
  show (match findLiveVote db.votes u t with
        | none => _
        | some existingVote => _) = _
  rw [hfind]
  dsimp only
  rw [if_pos heq, if_neg (by simp [noFail]), if_neg (by simp [noFail])]

theorem VoteTier_noFail_switch (db : DB) (u t : Nat) (vt : Int) (ex : VoteRow)
    (hvt : vt = 1 ∨ vt = -1)
    (hfind : findLiveVote db.votes u t = some ex)
    (hdiff : ex.vote_type ≠ vt) :
    VoteTier noFail db ⟨u, t, vt⟩ =
      ⟨.updated { ex with vote_type := vt },
       { db with
          votes := setVoteType db.votes ex.id vt
          tiers := if ex.vote_type = 1
            then adjustTier (adjustTier db.tiers t (addUp (-1))) t (addDown 1)
            else adjustTier (adjustTier db.tiers t (addDown (-1))) t (addUp 1) },
       false⟩ := by
  have hval : ¬((⟨u, t, vt⟩ : VoteRequest).vote_type ≠ 1 ∧
      (⟨u, t, vt⟩ : VoteRequest).vote_type ≠ -1) := by
    rcases hvt with h | h <;> simp [h]
  unfold VoteTier
  rw [if_neg hval, if_neg (by simp [noFail])]
  show (match findLiveVote db.votes u t with
        | none => _
        | some existingVote => _) = _
  rw [hfind]
  dsimp only
  rw [if_neg hdiff, if_neg (by simp [noFail]), if_neg (by simp [noFail])]

theorem CreateComment_noFail_ok (db : DB) (u t : Nat) (content : String)
    (hlen : ¬(content.utf8ByteSize = 0 ∨ content.utf8ByteSize > 100)) :
    CreateComment noFail db u t content =
      ⟨.created ⟨db.nextCommentId, u, t, content, false⟩,
       { db with
          comments := db.comments ++ [⟨db.nextCommentId, u, t, content, false⟩]
          tiers := adjustTier db.tiers t (addCom 1)
          nextCommentId := db.nextCommentId + 1 },
       false⟩ := by
  unfold CreateComment
  rw [if_neg hlen, if_neg (by simp [noFail])]
  dsimp only
  rw [if_neg (by simp [noFail])]

theorem DeleteComment_notFound (oracle : Nat → Bool) (db : DB) (id : Nat)
    (hnone : findLiveComment db.comments id = none) :
    DeleteComment oracle db id = ⟨.notFound, db, oracle 0⟩ := by
  unfold DeleteComment
  by_cases h0 : oracle 0 = true
  · rw [if_pos h0, h0]
  · rw [if_neg h0]
    show (match findLiveComment db.comments id with
          | none => _
          | some comment => _) = _
    rw [hnone]
    dsimp only
    rw [Bool.eq_false_iff.mpr h0]

theorem pair_free {votes : List VoteRow} {u t : Nat}
    (hpair : votePairTaken votes u t = false) :
    ∀ v ∈ votes, (v.user_id == u && v.tier_id == t) = false := by
  intro v hv
  cases hx : (v.user_id == u && v.tier_id == t)
  · rfl
  · have hany : votes.any (fun v => v.user_id == u && v.tier_id == t) = true :=
      List.any_eq_true.mpr ⟨v, hv, hx⟩
    rw [votePairTaken, hany] at hpair
    exact absurd hpair (by simp)

theorem findLiveVote_none {votes : List VoteRow} {u t : Nat}
    (hpair : votePairTaken votes u t = false) :
    findLiveVote votes u t = none := by
  rw [findLiveVote, List.find?_eq_none]
  intro v hv hcon
  have hfree := pair_free hpair v hv
  simp only [Bool.and_eq_true] at hcon
  rw [Bool.and_eq_false_iff] at hfree
  rcases hfree with h | h
  · rw [h] at hcon; exact absurd hcon.1.2 (by simp)
  · rw [h] at hcon; exact absurd hcon.2 (by simp)

theorem adjustTier_eq_of_live (tiers : List TierRow) (t : Nat)
    (g : TierRow → TierRow) (hTl : ∀ tr ∈ tiers, tr.deleted = false) :
    adjustTier tiers t g = tiers.map (fun tr => if tr.id = t then g tr else tr) := by
  unfold adjustTier updWhere
  refine List.map_congr_left ?_
  intro tr htr
  have hld := hTl tr htr
  by_cases h : tr.id = t
  · rw [if_pos (by simp [h, hld]), if_pos h]
  · rw [if_neg (by simp [h]), if_neg h]

theorem markVoteDeleted_eq (votes : List VoteRow) (ex : VoteRow)
    (hnd : (votes.map VoteRow.id).Nodup) (hmem : ex ∈ votes)
    (hlive : ex.deleted = false) :
    markVoteDeleted votes ex.id
      = votes.map (fun w => if w.id = ex.id then { w with deleted := true } else w) := by
  unfold markVoteDeleted updWhere
  refine List.map_congr_left ?_
  intro w hw
  by_cases h : w.id = ex.id
  · have hwex : w = ex := List.inj_on_of_nodup_map hnd hw hmem h
    subst hwex
    rw [if_pos (by simp [hlive]), if_pos h]
  · rw [if_neg (by simp [h]), if_neg h]

theorem setVoteType_eq (votes : List VoteRow) (ex : VoteRow) (vt : Int)
    (hnd : (votes.map VoteRow.id).Nodup) (hmem : ex ∈ votes)
    (hlive : ex.deleted = false) :
    setVoteType votes ex.id vt
      = votes.map (fun w => if w.id = ex.id then { w with vote_type := vt } else w) := by
  unfold setVoteType updWhere
  refine List.map_congr_left ?_
  intro w hw
  by_cases h : w.id = ex.id
  · have hwex : w = ex := List.inj_on_of_nodup_map hnd hw hmem h
    subst hwex
    rw [if_pos (by simp [hlive]), if_pos h]
  · rw [if_neg (by simp [h]), if_neg h]

theorem markCommentDeleted_eq (comments : List CommentRow) (c : CommentRow)
    (hnd : (comments.map CommentRow.id).Nodup) (hmem : c ∈ comments)
    (hlive : c.deleted = false) :
    markCommentDeleted comments c.id
      = comments.map (fun w => if w.id = c.id then { w with deleted := true } else w) := by
  unfold markCommentDeleted updWhere
  refine List.map_congr_left ?_
  intro w hw
  by_cases h : w.id = c.id
  · have hwc : w = c := List.inj_on_of_nodup_map hnd hw hmem h
    subst hwc
    rw [if_pos (by simp [hlive]), if_pos h]
  · rw [if_neg (by simp [h]), if_neg h]

theorem DeleteComment_noFail_found (db : DB) (id : Nat) (c : CommentRow)
    (hfind : findLiveComment db.comments id = some c) :
    DeleteComment noFail db id =
      ⟨.deleted,
       { db with
          comments := markCommentDeleted db.comments c.id
          tiers := adjustTier db.tiers c.tier_id (addCom (-1)) },
       false⟩ := by
  unfold DeleteComment
  rw [if_neg (by simp [noFail])]
  show (match findLiveComment db.comments id with
        | none => _
        | some comment => _) = _
  rw [hfind]
  dsimp only
  rw [if_neg (by simp [noFail]), if_neg (by simp [noFail])]

/-! ### Atomicity of `VoteTier` and uniqueness of live votes per pair -/

theorem VoteTier_atomic (oracle : Nat → Bool) (db : DB) (req : VoteRequest) :
    ((VoteTier oracle db req).failed = true → (VoteTier oracle db req).db = db) ∧
    ((VoteTier oracle db req).outcome = .storageFailure →
      (VoteTier oracle db req).db = db ∧ (VoteTier oracle db req).failed = true) := by
  unfold VoteTier
  split
  · simp
  · split
    · simp
    · split
      · dsimp only
        split
        · simp
        · split
          · simp
          · simp
      · split
        · split
          · simp
          · split
            · simp
            · simp
        · split
          · simp
          · split
            · simp
            · simp

theorem VoteTier_pairNodup (oracle : Nat → Bool) (db : DB) (req : VoteRequest)
    (h : (db.votes.map (fun v => (v.user_id, v.tier_id))).Nodup) :
    ((VoteTier oracle db req).db.votes.map
      (fun v => (v.user_id, v.tier_id))).Nodup := by
  unfold VoteTier
  split
  · exact h
  · split
    · exact h
    · split
      case h_1 heq =>
        split
        case isTrue => exact h
        case isFalse h1 =>
          dsimp only
          split
          · exact h
          · refine nodup_map_append_singleton h ?_
            have hpair : votePairTaken db.votes req.user_id req.tier_id = false := by
              rcases Bool.or_eq_false_iff.mp (Bool.eq_false_iff.mpr h1) with ⟨_, hp⟩
              exact hp
            intro w hw
            have := pair_free hpair w hw
            simp only [Bool.and_eq_false_iff, beq_eq_false_iff_ne] at this
            intro hcon
            have h1' : w.user_id = req.user_id := congrArg Prod.fst hcon
            have h2' : w.tier_id = req.tier_id := congrArg Prod.snd hcon
            rcases this with hh | hh
            · exact hh h1'
            · exact hh h2'
      case h_2 ex heq =>
        split
        · split
          · exact h
          · split
            · exact h
            · show ((markVoteDeleted db.votes ex.id).map
                (fun v => (v.user_id, v.tier_id))).Nodup
              rw [show markVoteDeleted db.votes ex.id
                  = updWhere (fun v => v.id == ex.id && !v.deleted)
                      (fun v => { v with deleted := true }) db.votes from rfl,
                map_updWhere_of_preserved _ (fun v => { v with deleted := true })
                  (fun v => (v.user_id, v.tier_id)) (fun _ => rfl) db.votes]
              exact h
        · split
          · exact h
          · split
            · exact h
            · show ((setVoteType db.votes ex.id req.vote_type).map
                (fun v => (v.user_id, v.tier_id))).Nodup
              rw [show setVoteType db.votes ex.id req.vote_type
                  = updWhere (fun v => v.id == ex.id && !v.deleted)
                      (fun v => { v with vote_type := req.vote_type }) db.votes from rfl,
                map_updWhere_of_preserved _
                  (fun v => { v with vote_type := req.vote_type })
                  (fun v => (v.user_id, v.tier_id)) (fun _ => rfl) db.votes]
              exact h

theorem countP_le_one_of_nodup {α : Type} {p : α → Bool} {a : α}
    (hp : ∀ x, p x = true → x = a) :
    ∀ {l : List α}, l.Nodup → l.countP p ≤ 1 := by
  intro l
  induction l with
  | nil => simp
  | cons y l ih =>
    intro h
    rw [List.nodup_cons] at h
    rw [List.countP_cons]
    by_cases hy : p y = true
    · have hya := hp y hy
      subst hya
      have hz : l.countP p = 0 := by
        rw [List.countP_eq_zero]
        intro x hx hcon
        rw [hp x hcon] at hx
        exact absurd hx h.1
      simp [hz, hy]
    · have := ih h.2
      have hyf : p y = false := by
        cases hpy : p y
        · rfl
        · exact absurd hpy hy
      rw [hyf]
      norm_num
      omega

theorem livePair_le_one {votes : List VoteRow} {u t : Nat}
    (h : (votes.map (fun v => (v.user_id, v.tier_id))).Nodup) :
    votes.countP (fun v => !v.deleted && v.user_id == u && v.tier_id == t) ≤ 1 := by
  have h1 : votes.countP (fun v => !v.deleted && v.user_id == u && v.tier_id == t)
      ≤ votes.countP (fun v => (v.user_id, v.tier_id) == (u, t)) := by
    refine List.countP_mono_left ?_
    intro v _ hv
    simp only [Bool.and_eq_true, beq_iff_eq] at hv
    simp only [beq_iff_eq, Prod.mk.injEq]
    exact ⟨hv.1.2, hv.2⟩
  have h2 : votes.countP (fun v => (v.user_id, v.tier_id) == (u, t))
      = (votes.map (fun v => (v.user_id, v.tier_id))).countP (fun x => x == (u, t)) := by
    rw [List.countP_map]
    rfl
  have h3 : (votes.map (fun v => (v.user_id, v.tier_id))).countP
      (fun x => x == (u, t)) ≤ 1 :=
    countP_le_one_of_nodup (fun x hx => by simpa using hx) h
  omega

theorem adjustTier_congr_id (tiers : List TierRow) (t : Nat)
    (g : TierRow → TierRow) (hgi : ∀ tr, g tr = tr) :
    adjustTier tiers t g = tiers := by
  unfold adjustTier updWhere
  have hpt : ∀ tr ∈ tiers,
      (if (tr.id == t && !tr.deleted) = true then g tr else tr) = tr := by
    intro tr _
    by_cases h : (tr.id == t && !tr.deleted) = true <;> simp [h, hgi]
  rw [List.map_congr_left hpt]
  exact List.map_id' tiers

/-! ### The claims -/

/-- C1: after every sequence of `VoteTier` (applyVote), `CreateComment`
(applyComment) and `DeleteComment` (retractComment) calls starting from a
well-formed, counter-consistent state, every tier row's `upvote_count` equals
the number of non-deleted vote rows for that tier with `vote_type` = +1,
`downvote_count` the number with `vote_type` = -1, and `comment_count` the
number of non-deleted comment rows for that tier.  Proved for arbitrary
failure oracles, hence in particular for sequences in which every call
completed successfully: a call during which a storage statement fails leaves
the state unchanged. -/
theorem C1_counter_invariant (db : DB) (ops : List Op)
    (hWF : WF db) (hOK : countersOK db) : countersOK (run db ops) :=
  (run_preserves ops db ⟨hWF, hOK⟩).2

theorem C1_counter_invariant_witness :
    (WF ⟨[⟨1, 0, 0, 0, false⟩], [], [], 1, 1⟩ ∧
      countersOK ⟨[⟨1, 0, 0, 0, false⟩], [], [], 1, 1⟩) ∧
    countersOK (run ⟨[⟨1, 0, 0, 0, false⟩], [], [], 1, 1⟩
      [.vote noFail ⟨7, 1, 1⟩, .comment noFail 7 1 "great",
       .vote noFail ⟨8, 1, -1⟩, .retract noFail 1, .vote noFail ⟨8, 1, 1⟩]) :=
  ⟨⟨by decide, by decide⟩,
    C1_counter_invariant ⟨[⟨1, 0, 0, 0, false⟩], [], [], 1, 1⟩
      [.vote noFail ⟨7, 1, 1⟩, .comment noFail 7 1 "great",
       .vote noFail ⟨8, 1, -1⟩, .retract noFail 1, .vote noFail ⟨8, 1, 1⟩]
      (by decide) (by decide)⟩

/-- C2 (amended): for every applyVote call with a valid vote type, a storage
failure during the call leaves the data model exactly as it was (the
transaction never commits partially), and every `StorageFailure` response
coincides with an unchanged data model; however — as the counterexample
shows — a failure of a counter-adjustment statement is NOT reported as
`StorageFailure`: the handler ignores that error, commits the aborted
transaction (a rollback) and still writes the success response. -/
theorem C2_failure_atomicity (oracle : Nat → Bool) (db : DB)
    (req : VoteRequest) (hvt : req.vote_type = 1 ∨ req.vote_type = -1) :
    ((VoteTier oracle db req).failed = true → (VoteTier oracle db req).db = db) ∧
    ((VoteTier oracle db req).outcome = .storageFailure →
      (VoteTier oracle db req).db = db ∧ (VoteTier oracle db req).failed = true) :=
  VoteTier_atomic oracle db req

theorem C2_failure_atomicity_witness :
    (((⟨7, 1, 1⟩ : VoteRequest).vote_type = 1 ∨
       (⟨7, 1, 1⟩ : VoteRequest).vote_type = -1) ∧
      (VoteTier (fun n => n == 2) ⟨[⟨1, 0, 0, 0, false⟩], [], [], 1, 1⟩
        ⟨7, 1, 1⟩).failed = true) ∧
    ((VoteTier (fun n => n == 2) ⟨[⟨1, 0, 0, 0, false⟩], [], [], 1, 1⟩
        ⟨7, 1, 1⟩).failed = true →
      (VoteTier (fun n => n == 2) ⟨[⟨1, 0, 0, 0, false⟩], [], [], 1, 1⟩
        ⟨7, 1, 1⟩).db = ⟨[⟨1, 0, 0, 0, false⟩], [], [], 1, 1⟩) :=
  ⟨⟨Or.inl rfl, by decide⟩,
    (C2_failure_atomicity (fun n => n == 2)
      ⟨[⟨1, 0, 0, 0, false⟩], [], [], 1, 1⟩ ⟨7, 1, 1⟩ (Or.inl rfl)).1⟩

/-- C2 counterexample: on a valid upvote with no prior vote, making the
counter-adjustment statement (statement 2) fail produces a call during which
a storage operation failed (`failed = true`), after which the data model is
unchanged — yet the caller observes `Created` with the vote JSON, not the
`StorageFailure` the claim requires. -/
theorem C2_counterexample :
    (VoteTier (fun n => n == 2) ⟨[⟨1, 0, 0, 0, false⟩], [], [], 1, 1⟩
        ⟨7, 1, 1⟩).failed = true ∧
    (VoteTier (fun n => n == 2) ⟨[⟨1, 0, 0, 0, false⟩], [], [], 1, 1⟩
        ⟨7, 1, 1⟩).db = ⟨[⟨1, 0, 0, 0, false⟩], [], [], 1, 1⟩ ∧
    (VoteTier (fun n => n == 2) ⟨[⟨1, 0, 0, 0, false⟩], [], [], 1, 1⟩
        ⟨7, 1, 1⟩).outcome = .created ⟨1, 7, 1, 1, false⟩ ∧
    (VoteTier (fun n => n == 2) ⟨[⟨1, 0, 0, 0, false⟩], [], [], 1, 1⟩
        ⟨7, 1, 1⟩).outcome ≠ .storageFailure := by
  decide

/-- C3 (amended): when NO vote row for (u, t) exists at all — soft-deleted
rows included, since the unfiltered unique index also sees those — a valid
applyVote inserts exactly one new live vote row carrying the requested type,
adjusts exactly the matching counter of tier t by +1 (all other rows and
fields untouched), and returns `Created` with the new vote.  The original
claim's weaker precondition ("no existing non-deleted Vote row") is refuted
by the counterexample: a soft-deleted row for the pair makes the insert
violate the unique index, and the call fails instead of returning `Created`. -/
theorem C3_first_vote_insert (db : DB) (u t : Nat) (vt : Int)
    (hvt : vt = 1 ∨ vt = -1)
    (hTl : ∀ tr ∈ db.tiers, tr.deleted = false)
    (hpair : votePairTaken db.votes u t = false) :
    (VoteTier noFail db ⟨u, t, vt⟩).outcome
        = .created ⟨db.nextVoteId, u, t, vt, false⟩ ∧
    (VoteTier noFail db ⟨u, t, vt⟩).db.votes
        = db.votes ++ [⟨db.nextVoteId, u, t, vt, false⟩] ∧
    (VoteTier noFail db ⟨u, t, vt⟩).db.comments = db.comments ∧
    (VoteTier noFail db ⟨u, t, vt⟩).db.tiers
        = db.tiers.map (fun tr => if tr.id = t then
            (if vt = 1 then addUp 1 tr else addDown 1 tr) else tr) := by
  rw [VoteTier_noFail_create db u t vt hvt (findLiveVote_none hpair) hpair]
  refine ⟨rfl, rfl, rfl, ?_⟩
  show (if vt = 1 then adjustTier db.tiers t (addUp 1)
        else adjustTier db.tiers t (addDown 1)) = _
  rcases hvt with rfl | rfl
  · rw [if_pos rfl, adjustTier_eq_of_live db.tiers t (addUp 1) hTl]
    refine List.map_congr_left ?_
    intro tr _
    norm_num
  · rw [if_neg (by norm_num), adjustTier_eq_of_live db.tiers t (addDown 1) hTl]
    refine List.map_congr_left ?_
    intro tr _
    norm_num

theorem C3_first_vote_insert_witness :
    (((1 : Int) = 1 ∨ (1 : Int) = -1) ∧
      votePairTaken ([] : List VoteRow) 7 1 = false) ∧
    (VoteTier noFail ⟨[⟨1, 0, 0, 0, false⟩], [], [], 1, 1⟩ ⟨7, 1, 1⟩).outcome
      = .created ⟨1, 7, 1, 1, false⟩ :=
  ⟨⟨Or.inl rfl, by decide⟩,
    (C3_first_vote_insert ⟨[⟨1, 0, 0, 0, false⟩], [], [], 1, 1⟩ 7 1 1
      (Or.inl rfl) (by decide) (by decide)).1⟩

/-- C3 counterexample: a state whose only vote row for (7, 1) is
soft-deleted — so no non-deleted Vote row for the pair exists, the claim's
precondition — on which applyVote(7, 1, +1) returns `storageFailure`
(unique-index violation on the insert) and changes nothing, instead of the
claimed `Created` with a new vote row and counter increment. -/
theorem C3_counterexample :
    findLiveVote [⟨1, 7, 1, 1, true⟩] 7 1 = none ∧
    (VoteTier noFail ⟨[⟨1, 0, 0, 0, false⟩], [⟨1, 7, 1, 1, true⟩], [], 2, 1⟩
        ⟨7, 1, 1⟩).outcome = .storageFailure ∧
    (VoteTier noFail ⟨[⟨1, 0, 0, 0, false⟩], [⟨1, 7, 1, 1, true⟩], [], 2, 1⟩
        ⟨7, 1, 1⟩).db
      = ⟨[⟨1, 0, 0, 0, false⟩], [⟨1, 7, 1, 1, true⟩], [], 2, 1⟩ := by
  decide

/-- C4: toggle-off — when a non-deleted vote row `ex` for (u, t) exists with
the requested type, applyVote soft-deletes exactly that row, adjusts exactly
the matching counter of tier t by -1 (all other rows and fields untouched),
and returns `Removed` with no vote record. -/
theorem C4_toggle_off (db : DB) (u t : Nat) (vt : Int) (ex : VoteRow)
    (hWF : WF db) (hmem : ex ∈ db.votes) (hlive : ex.deleted = false)
    (hu : ex.user_id = u) (ht : ex.tier_id = t)
    (hex : ex.vote_type = vt) (hvt : vt = 1 ∨ vt = -1) :
    (VoteTier noFail db ⟨u, t, vt⟩).outcome = .removed ∧
    (VoteTier noFail db ⟨u, t, vt⟩).db.votes
      = db.votes.map (fun w => if w.id = ex.id then { w with deleted := true } else w) ∧
    (VoteTier noFail db ⟨u, t, vt⟩).db.comments = db.comments ∧
    (VoteTier noFail db ⟨u, t, vt⟩).db.tiers
      = db.tiers.map (fun tr => if tr.id = t then
          (if vt = 1 then addUp (-1) tr else addDown (-1) tr) else tr) := by
  obtain ⟨hTid, hVid, hCid, hPair, _, _, _, hTl⟩ := hWF
  have hfind := findLiveVote_eq_some hPair hmem hlive hu ht
  rw [VoteTier_noFail_toggle db u t vt ex hvt hfind hex]
  refine ⟨rfl, markVoteDeleted_eq db.votes ex hVid hmem hlive, rfl, ?_⟩
  show (if ex.vote_type = 1 then adjustTier db.tiers t (addUp (-1))
        else adjustTier db.tiers t (addDown (-1))) = _
  rw [hex]
  rcases hvt with rfl | rfl
  · rw [if_pos rfl, adjustTier_eq_of_live db.tiers t (addUp (-1)) hTl]
    refine List.map_congr_left ?_
    intro tr _
    norm_num
  · rw [if_neg (by norm_num), adjustTier_eq_of_live db.tiers t (addDown (-1)) hTl]
    refine List.map_congr_left ?_
    intro tr _
    norm_num

theorem C4_toggle_off_witness :
    (WF ⟨[⟨1, 1, 0, 0, false⟩], [⟨1, 7, 1, 1, false⟩], [], 2, 1⟩ ∧
      ((1 : Int) = 1 ∨ (1 : Int) = -1)) ∧
    (VoteTier noFail ⟨[⟨1, 1, 0, 0, false⟩], [⟨1, 7, 1, 1, false⟩], [], 2, 1⟩
        ⟨7, 1, 1⟩).outcome = .removed :=
  ⟨⟨by decide, Or.inl rfl⟩,
    (C4_toggle_off ⟨[⟨1, 1, 0, 0, false⟩], [⟨1, 7, 1, 1, false⟩], [], 2, 1⟩
      7 1 1 ⟨1, 7, 1, 1, false⟩ (by decide) (by decide) rfl rfl rfl rfl
      (Or.inl rfl)).1⟩

/-- C5: switch — when a non-deleted vote row `ex` for (u, t) exists with a
type different from the requested one, applyVote updates exactly that row's
`vote_type` to the requested type, adjusts tier t's counter matching the old
type by -1 AND the counter matching the new type by +1 in the same call (all
other rows and fields untouched), and returns `Updated` with the mutated
vote. -/
theorem C5_switch (db : DB) (u t : Nat) (vt : Int) (ex : VoteRow)
    (hWF : WF db) (hmem : ex ∈ db.votes) (hlive : ex.deleted = false)
    (hu : ex.user_id = u) (ht : ex.tier_id = t)
    (hdiff : ex.vote_type ≠ vt) (hvt : vt = 1 ∨ vt = -1) :
    (VoteTier noFail db ⟨u, t, vt⟩).outcome = .updated { ex with vote_type := vt } ∧
    (VoteTier noFail db ⟨u, t, vt⟩).db.votes
      = db.votes.map (fun w => if w.id = ex.id then { w with vote_type := vt } else w) ∧
    (VoteTier noFail db ⟨u, t, vt⟩).db.comments = db.comments ∧
    (VoteTier noFail db ⟨u, t, vt⟩).db.tiers
      = db.tiers.map (fun tr => if tr.id = t then
          (if ex.vote_type = 1 then addDown 1 (addUp (-1) tr)
           else addUp 1 (addDown (-1) tr)) else tr) := by
  obtain ⟨hTid, hVid, hCid, hPair, _, _, hVt, hTl⟩ := hWF
  have hfind := findLiveVote_eq_some hPair hmem hlive hu ht
  rw [VoteTier_noFail_switch db u t vt ex hvt hfind hdiff]
  refine ⟨rfl, setVoteType_eq db.votes ex vt hVid hmem hlive, rfl, ?_⟩
  show (if ex.vote_type = 1
        then adjustTier (adjustTier db.tiers t (addUp (-1))) t (addDown 1)
        else adjustTier (adjustTier db.tiers t (addDown (-1))) t (addUp 1)) = _
  rcases hVt ex hmem with h1 | h1
  · rw [if_pos h1,
      adjustTier_adjustTier db.tiers t (addUp (-1)) (addDown 1)
        (fun _ => rfl) (fun _ => rfl),
      adjustTier_eq_of_live db.tiers t _ hTl]
    refine List.map_congr_left ?_
    intro tr _
    simp [h1]
  · rw [if_neg (by rw [h1]; norm_num),
      adjustTier_adjustTier db.tiers t (addDown (-1)) (addUp 1)
        (fun _ => rfl) (fun _ => rfl),
      adjustTier_eq_of_live db.tiers t _ hTl]
    refine List.map_congr_left ?_
    intro tr _
    simp [h1]

theorem C5_switch_witness :
    (WF ⟨[⟨1, 1, 0, 0, false⟩], [⟨1, 7, 1, 1, false⟩], [], 2, 1⟩ ∧
      (⟨1, 7, 1, 1, false⟩ : VoteRow).vote_type ≠ -1 ∧
      ((-1 : Int) = 1 ∨ (-1 : Int) = -1)) ∧
    (VoteTier noFail ⟨[⟨1, 1, 0, 0, false⟩], [⟨1, 7, 1, 1, false⟩], [], 2, 1⟩
        ⟨7, 1, -1⟩).outcome = .updated ⟨1, 7, 1, -1, false⟩ :=
  ⟨⟨by decide, by decide, Or.inr rfl⟩,
    (C5_switch ⟨[⟨1, 1, 0, 0, false⟩], [⟨1, 7, 1, 1, false⟩], [], 2, 1⟩
      7 1 (-1) ⟨1, 7, 1, 1, false⟩ (by decide) (by decide) rfl rfl rfl
      (by decide) (Or.inr rfl)).1⟩

/-- C6: uniqueness — starting from any state in which the (user_id, tier_id)
pairs of the vote rows are pairwise distinct (the unique index), after any
two applyVote calls, for every pair (u, t) there is at most one non-deleted
vote row for (u, t): the second call can only mutate or soft-delete the
first call's row, never add a second live row for the same pair. -/
theorem C6_at_most_one_live_vote (db : DB) (u t : Nat)
    (hPair : (db.votes.map (fun v => (v.user_id, v.tier_id))).Nodup)
    (o₁ o₂ : Nat → Bool) (r₁ r₂ : VoteRequest) :
    ((VoteTier o₂ (VoteTier o₁ db r₁).db r₂).db.votes.countP
      (fun v => !v.deleted && v.user_id == u && v.tier_id == t)) ≤ 1 :=
  livePair_le_one
    (VoteTier_pairNodup o₂ (VoteTier o₁ db r₁).db r₂
      (VoteTier_pairNodup o₁ db r₁ hPair))

theorem C6_at_most_one_live_vote_witness :
    ((([] : List VoteRow).map (fun v => (v.user_id, v.tier_id))).Nodup) ∧
    ((VoteTier noFail
        (VoteTier noFail ⟨[⟨1, 0, 0, 0, false⟩], [], [], 1, 1⟩ ⟨7, 1, 1⟩).db
        ⟨7, 1, -1⟩).db.votes.countP
      (fun v => !v.deleted && v.user_id == 7 && v.tier_id == 1)) ≤ 1 :=
  ⟨by decide,
    C6_at_most_one_live_vote ⟨[⟨1, 0, 0, 0, false⟩], [], [], 1, 1⟩ 7 1
      (by decide) noFail noFail ⟨7, 1, 1⟩ ⟨7, 1, -1⟩⟩

/-- C7: retractComment — if no non-deleted comment with the given id exists
(or the lookup errors), the call reports `NotFound` and performs no mutation
whatsoever; otherwise (with no storage failure) it soft-deletes exactly the
comment row, decrements `comment_count` of the comment's own tier by exactly
1, and touches nothing else. -/
theorem C7_retract_comment (db : DB) (id : Nat) :
    (∀ oracle : Nat → Bool, findLiveComment db.comments id = none →
        (DeleteComment oracle db id).outcome = .notFound ∧
        (DeleteComment oracle db id).db = db) ∧
    (∀ c : CommentRow, WF db → findLiveComment db.comments id = some c →
        (DeleteComment noFail db id).outcome = .deleted ∧
        (DeleteComment noFail db id).db.votes = db.votes ∧
        (DeleteComment noFail db id).db.comments
          = db.comments.map (fun w => if w.id = c.id then { w with deleted := true } else w) ∧
        (DeleteComment noFail db id).db.tiers
          = db.tiers.map (fun tr => if tr.id = c.tier_id then addCom (-1) tr else tr)) := by
  constructor
  · intro oracle hnone
    rw [DeleteComment_notFound oracle db id hnone]
    exact ⟨rfl, rfl⟩
  · intro c hWF hfind
    obtain ⟨_, _, hCid, _, _, _, _, hTl⟩ := hWF
    obtain ⟨hmem, hlive, _⟩ := findLiveComment_some hfind
    rw [DeleteComment_noFail_found db id c hfind]
    exact ⟨rfl, rfl, markCommentDeleted_eq db.comments c hCid hmem hlive,
      adjustTier_eq_of_live db.tiers c.tier_id (addCom (-1)) hTl⟩

theorem C7_retract_comment_witness :
    (findLiveComment [(⟨1, 7, 1, "x", false⟩ : CommentRow)] 5 = none ∧
      WF ⟨[⟨1, 0, 0, 1, false⟩], [], [⟨1, 7, 1, "x", false⟩], 1, 2⟩ ∧
      findLiveComment [(⟨1, 7, 1, "x", false⟩ : CommentRow)] 1
        = some ⟨1, 7, 1, "x", false⟩) ∧
    ((DeleteComment noFail ⟨[⟨1, 0, 0, 1, false⟩], [], [⟨1, 7, 1, "x", false⟩], 1, 2⟩
        5).outcome = .notFound ∧
      (DeleteComment noFail ⟨[⟨1, 0, 0, 1, false⟩], [], [⟨1, 7, 1, "x", false⟩], 1, 2⟩
        1).outcome = .deleted) :=
  ⟨⟨by decide, by decide, by decide⟩,
    ⟨((C7_retract_comment ⟨[⟨1, 0, 0, 1, false⟩], [], [⟨1, 7, 1, "x", false⟩], 1, 2⟩
        5).1 noFail (by decide)).1,
      ((C7_retract_comment ⟨[⟨1, 0, 0, 1, false⟩], [], [⟨1, 7, 1, "x", false⟩], 1, 2⟩
        1).2 ⟨1, 7, 1, "x", false⟩ (by decide) (by decide)).1⟩⟩


/-- C8: input validation — an applyVote request whose vote type is outside
{+1, -1} is rejected with `InvalidArgument` before any storage access (under
EVERY failure oracle, including the all-fail one, the state is unchanged and
no storage statement runs, so no transaction was opened); an applyComment
whose content has byte length 0 or above 100 is likewise rejected before any
storage access; and applyComment succeeds for content of length 1 and of
length 100. -/
theorem C8_validation :
    (∀ (oracle : Nat → Bool) (db : DB) (req : VoteRequest),
        req.vote_type ≠ 1 ∧ req.vote_type ≠ -1 →
        VoteTier oracle db req = ⟨.invalidArgument, db, false⟩) ∧
    (∀ (oracle : Nat → Bool) (db : DB) (u t : Nat) (content : String),
        content.utf8ByteSize = 0 ∨ content.utf8ByteSize > 100 →
        CreateComment oracle db u t content = ⟨.invalidArgument, db, false⟩) ∧
    (∀ (db : DB) (u t : Nat) (content : String),
        content.utf8ByteSize = 1 ∨ content.utf8ByteSize = 100 →
        (CreateComment noFail db u t content).outcome
          = .created ⟨db.nextCommentId, u, t, content, false⟩) := by
  refine ⟨?_, ?_, ?_⟩
  · intro oracle db req hbad
    unfold VoteTier
    rw [if_pos hbad]
  · intro oracle db u t content hbad
    unfold CreateComment
    rw [if_pos hbad]
  · intro db u t content hlen
    have hok : ¬(content.utf8ByteSize = 0 ∨ content.utf8ByteSize > 100) := by
      rcases hlen with h | h <;> omega
    rw [CreateComment_noFail_ok db u t content hok]

theorem C8_validation_witness :
    (((⟨7, 1, 5⟩ : VoteRequest).vote_type ≠ 1 ∧
        (⟨7, 1, 5⟩ : VoteRequest).vote_type ≠ -1) ∧
      ("" : String).utf8ByteSize = 0 ∧
      ("a" : String).utf8ByteSize = 1 ∧
      ("aaaaaaaaaaaaaaaaaaaaaaaaaaaaaaaaaaaaaaaaaaaaaaaaaaaaaaaaaaaaaaaaaaaaaaaaaaaaaaaaaaaaaaaaaaaaaaaaaaaa" : String).utf8ByteSize = 100) ∧
    (VoteTier (fun _ => true) ⟨[⟨1, 0, 0, 0, false⟩], [], [], 1, 1⟩ ⟨7, 1, 5⟩
        = ⟨.invalidArgument, ⟨[⟨1, 0, 0, 0, false⟩], [], [], 1, 1⟩, false⟩ ∧
      CreateComment (fun _ => true) ⟨[⟨1, 0, 0, 0, false⟩], [], [], 1, 1⟩ 7 1 ""
        = ⟨.invalidArgument, ⟨[⟨1, 0, 0, 0, false⟩], [], [], 1, 1⟩, false⟩ ∧
      (CreateComment noFail ⟨[⟨1, 0, 0, 0, false⟩], [], [], 1, 1⟩ 7 1 "a").outcome
        = .created ⟨1, 7, 1, "a", false⟩ ∧
      (CreateComment noFail ⟨[⟨1, 0, 0, 0, false⟩], [], [], 1, 1⟩ 7 1
          "aaaaaaaaaaaaaaaaaaaaaaaaaaaaaaaaaaaaaaaaaaaaaaaaaaaaaaaaaaaaaaaaaaaaaaaaaaaaaaaaaaaaaaaaaaaaaaaaaaaa").outcome
        = .created ⟨1, 7, 1, "aaaaaaaaaaaaaaaaaaaaaaaaaaaaaaaaaaaaaaaaaaaaaaaaaaaaaaaaaaaaaaaaaaaaaaaaaaaaaaaaaaaaaaaaaaaaaaaaaaaa", false⟩) :=
  ⟨⟨by decide, by decide, by decide, by decide⟩,
    ⟨C8_validation.1 (fun _ => true) ⟨[⟨1, 0, 0, 0, false⟩], [], [], 1, 1⟩
        ⟨7, 1, 5⟩ (by decide),
      C8_validation.2.1 (fun _ => true) ⟨[⟨1, 0, 0, 0, false⟩], [], [], 1, 1⟩
        7 1 "" (by decide),
      C8_validation.2.2 ⟨[⟨1, 0, 0, 0, false⟩], [], [], 1, 1⟩ 7 1 "a"
        (by decide),
      C8_validation.2.2 ⟨[⟨1, 0, 0, 0, false⟩], [], [], 1, 1⟩ 7 1
        "aaaaaaaaaaaaaaaaaaaaaaaaaaaaaaaaaaaaaaaaaaaaaaaaaaaaaaaaaaaaaaaaaaaaaaaaaaaaaaaaaaaaaaaaaaaaaaaaaaaa" (by decide)⟩⟩

/-- C9: toggle round trip — from a state with no vote row at all for (u, t),
applyVote(u, t, +1) returns `Created`, a second applyVote(u, t, +1) returns
`Removed`, and after the second call every tier row — in particular tier t's
`upvote_count` — is exactly as before the first call. -/
theorem C9_toggle_roundtrip (db : DB) (u t : Nat)
    (hpair : votePairTaken db.votes u t = false) :
    (VoteTier noFail db ⟨u, t, 1⟩).outcome
        = .created ⟨db.nextVoteId, u, t, 1, false⟩ ∧
    (VoteTier noFail (VoteTier noFail db ⟨u, t, 1⟩).db ⟨u, t, 1⟩).outcome
        = .removed ∧
    (VoteTier noFail (VoteTier noFail db ⟨u, t, 1⟩).db ⟨u, t, 1⟩).db.tiers
        = db.tiers := by
  have hnone := findLiveVote_none hpair
  rw [VoteTier_noFail_create db u t 1 (Or.inl rfl) hnone hpair]
  refine ⟨rfl, ?_⟩
  have hfind2 : findLiveVote (db.votes ++ [⟨db.nextVoteId, u, t, 1, false⟩]) u t
      = some ⟨db.nextVoteId, u, t, 1, false⟩ := by
    rw [findLiveVote, List.find?_append]
    rw [findLiveVote] at hnone
    rw [hnone]
    simp
  have h2 := VoteTier_noFail_toggle
    ⟨(if (1 : Int) = 1 then adjustTier db.tiers t (addUp 1)
      else adjustTier db.tiers t (addDown 1)),
     db.votes ++ [⟨db.nextVoteId, u, t, 1, false⟩], db.comments,
     db.nextVoteId + 1, db.nextCommentId⟩
    u t 1 ⟨db.nextVoteId, u, t, 1, false⟩ (Or.inl rfl) hfind2 rfl
  rw [h2]
  refine ⟨rfl, ?_⟩
  show (if (⟨db.nextVoteId, u, t, 1, false⟩ : VoteRow).vote_type = 1
        then adjustTier (⟨(if (1 : Int) = 1 then adjustTier db.tiers t (addUp 1)
              else adjustTier db.tiers t (addDown 1)),
            db.votes ++ [⟨db.nextVoteId, u, t, 1, false⟩], db.comments,
            db.nextVoteId + 1, db.nextCommentId⟩ : DB).tiers t (addUp (-1))
        else adjustTier (⟨(if (1 : Int) = 1 then adjustTier db.tiers t (addUp 1)
              else adjustTier db.tiers t (addDown 1)),
            db.votes ++ [⟨db.nextVoteId, u, t, 1, false⟩], db.comments,
            db.nextVoteId + 1, db.nextCommentId⟩ : DB).tiers t (addDown (-1)))
      = db.tiers
  norm_num
  rw [adjustTier_adjustTier db.tiers t (addUp 1) (addUp (-1))
    (fun _ => rfl) (fun _ => rfl)]
  refine adjustTier_congr_id db.tiers t _ ?_
  intro tr
  cases tr
  simp only [addUp]
  norm_num

theorem C9_toggle_roundtrip_witness :
    votePairTaken ([] : List VoteRow) 7 1 = false ∧
    (VoteTier noFail
      (VoteTier noFail ⟨[⟨1, 0, 0, 0, false⟩], [], [], 1, 1⟩ ⟨7, 1, 1⟩).db
      ⟨7, 1, 1⟩).db.tiers = [⟨1, 0, 0, 0, false⟩] :=
  ⟨by decide,
    (C9_toggle_roundtrip ⟨[⟨1, 0, 0, 0, false⟩], [], [], 1, 1⟩ 7 1
      (by decide)).2.2⟩

/-- C10 (implicit): because toggle-off SOFT-deletes the vote row while the
unique index on (user_id, tier_id) is unfiltered and still covers that row,
any valid applyVote for the same pair made after a completed toggle-off hits
the no-existing-vote insert path and fails with a storage error
(unique-index violation), leaving the state unchanged, instead of returning
`Created`. -/
theorem C10_revote_after_toggle_fails (db : DB) (u t : Nat) (vt vt2 : Int)
    (ex : VoteRow) (hWF : WF db)
    (hmem : ex ∈ db.votes) (hlive : ex.deleted = false)
    (hu : ex.user_id = u) (ht : ex.tier_id = t)
    (hex : ex.vote_type = vt) (hvt : vt = 1 ∨ vt = -1)
    (hvt2 : vt2 = 1 ∨ vt2 = -1) :
    (VoteTier noFail db ⟨u, t, vt⟩).outcome = .removed ∧
    VoteTier noFail (VoteTier noFail db ⟨u, t, vt⟩).db ⟨u, t, vt2⟩
      = ⟨.storageFailure, (VoteTier noFail db ⟨u, t, vt⟩).db, true⟩ := by
  obtain ⟨hTid, hVid, hCid, hPair, _, _, _, hTl⟩ := hWF
  have hfind := findLiveVote_eq_some hPair hmem hlive hu ht
  rw [VoteTier_noFail_toggle db u t vt ex hvt hfind hex]
  refine ⟨rfl, ?_⟩
  have hnone : findLiveVote (markVoteDeleted db.votes ex.id) u t = none := by
    rw [findLiveVote, List.find?_eq_none]
    intro w' hw' hcon
    obtain ⟨w, hw, hcase⟩ := mem_updWhere hw'
    simp only [Bool.and_eq_true, Bool.not_eq_true', beq_iff_eq] at hcon
    rcases hcase with ⟨hsel, rfl⟩ | ⟨hsel, rfl⟩
    · exact absurd hcon.1.1 (by simp)
    · have hwex : w' = ex := List.inj_on_of_nodup_map hPair hw hmem (by
        rw [hcon.1.2, hcon.2, hu, ht])
      rw [hwex, hlive] at hsel
      simp at hsel
  have htaken : votePairTaken (markVoteDeleted db.votes ex.id) u t = true := by
    rw [votePairTaken, List.any_eq_true]
    refine ⟨{ ex with deleted := true }, ?_, by simp [hu, ht]⟩
    unfold markVoteDeleted updWhere
    refine List.mem_map.mpr ⟨ex, hmem, ?_⟩
    rw [if_pos (by simp [hlive])]
  exact VoteTier_noFail_conflict _ u t vt2 hvt2 hnone htaken

theorem C10_revote_after_toggle_fails_witness :
    (WF ⟨[⟨1, 1, 0, 0, false⟩], [⟨1, 7, 1, 1, false⟩], [], 2, 1⟩ ∧
      ((1 : Int) = 1 ∨ (1 : Int) = -1)) ∧
    ((VoteTier noFail ⟨[⟨1, 1, 0, 0, false⟩], [⟨1, 7, 1, 1, false⟩], [], 2, 1⟩
        ⟨7, 1, 1⟩).outcome = .removed ∧
      VoteTier noFail
        (VoteTier noFail ⟨[⟨1, 1, 0, 0, false⟩], [⟨1, 7, 1, 1, false⟩], [], 2, 1⟩
          ⟨7, 1, 1⟩).db ⟨7, 1, 1⟩
        = ⟨.storageFailure,
           (VoteTier noFail ⟨[⟨1, 1, 0, 0, false⟩], [⟨1, 7, 1, 1, false⟩], [], 2, 1⟩
             ⟨7, 1, 1⟩).db, true⟩) :=
  ⟨⟨by decide, Or.inl rfl⟩,
    C10_revote_after_toggle_fails
      ⟨[⟨1, 1, 0, 0, false⟩], [⟨1, 7, 1, 1, false⟩], [], 2, 1⟩
      7 1 1 1 ⟨1, 7, 1, 1, false⟩ (by decide) (by decide) rfl rfl rfl rfl
      (Or.inl rfl) (Or.inl rfl)⟩

end Freestealer
